import Mathlib

/-!
# Pooling operator glue of `src/operator/nn/pooling.cc`

A shallow embedding of the parameter parser, the output-count functions, the
shape inference and the CPU dispatch functions of the pooling operator,
followed by the properties proved about them.

Modelling conventions.

* `TShape` (a tuple of `dim_t = int64_t`) is a list of integers.  Arithmetic on
  `dim_t` values keeps the low 64 bits of the result in two's complement, as
  the compiled code does (`dimAdd`, `dimSub`, `dimMul`); the quotient
  `-2 ^ 63 / -1` has no defined result.
* A failed `CHECK` aborts the call: `Failure.check`.  An out-of-range index or
  an integer division by zero has no defined result: `Failure.undefined`.
* The header that declares `PoolingParam` and the MKLDNN helpers is not among
  the sources, so the helpers (`MKLDNNRequireWorkspace`, `SupportMKLDNNPooling`,
  `SupportMKLDNN`) and the build flag `MXNET_USE_MKLDNN` are parameters.

The tests of `tests/cpp/operator/mkldnn.cc` are embedded as well.  What they
call (`NDArray`, the MKLDNN memory and stream) is not among the
sources and is modelled from the specification; the vendor library is an
`Engine` of which only `Engine.Valid` is assumed.
-/

namespace mxnet.op

/-! ## Data model -/

/-- The two ways a call can stop without a result. -/
inductive Failure where
  | check
  | undefined
  deriving DecidableEq, Repr

/-- A shape: the dimensions in order. -/
abbrev TShape := List Int

/-- The number of dimensions, `TShape::ndim()`. -/
def ndim (s : TShape) : Nat := s.length

/-- Reading `s[i]`; the index must be in range. -/
def dimAt (s : TShape) (i : Nat) : Except Failure Int :=
  match s[i]? with
  | some v => pure v
  | none => throw Failure.undefined

/-- Writing `s[i] = v`; the index must be in range. -/
def dimSet (s : TShape) (i : Nat) (v : Int) : Except Failure TShape :=
  if i < s.length then pure (s.set i v) else throw Failure.undefined

/-- Reading `v[i]` of a `std::vector`; the index must be in range. -/
def vecAt {α : Type} (v : List α) (i : Nat) : Except Failure α :=
  match v[i]? with
  | some x => pure x
  | none => throw Failure.undefined

/-- The `CHECK` family: abort unless the condition holds. -/
def CHECK (cond : Bool) : Except Failure Unit :=
  if cond then pure () else throw Failure.check

/-- The enumeration `pool_enum::{kValid, kFull}` of the field
`pooling_convention`. -/
inductive PoolingConvention where
  | kValid
  | kFull
  deriving DecidableEq, Repr

/-- The enumeration of the field `pool_type`. -/
inductive PoolType where
  | kMaxPooling
  | kAvgPooling
  | kSumPooling
  deriving DecidableEq, Repr

/-- The operator parameter, with the fields `pooling.cc` names. -/
structure PoolingParam where
  kernel : TShape
  stride : TShape
  pad : TShape
  pool_type : PoolType
  pooling_convention : PoolingConvention
  global_pool : Bool
  deriving DecidableEq, Repr

/-- What the build and the absent MKLDNN header decide: the flag
`MXNET_USE_MKLDNN == 1` and the two predicates on the parameter. -/
structure Build where
  MXNET_USE_MKLDNN : Bool
  MKLDNNRequireWorkspace : PoolingParam → Bool
  SupportMKLDNNPooling : PoolingParam → Bool

/-- `mshadow::Shape1`. -/
def Shape1 (s0 : Int) : TShape := [s0]

/-- `mshadow::Shape2`. -/
def Shape2 (s0 s1 : Int) : TShape := [s0, s1]

/-- `mshadow::Shape3`. -/
def Shape3 (s0 s1 s2 : Int) : TShape := [s0, s1, s2]

/-! ## `PoolingParamParser` -/

/-- `PoolingParamParser`, from the parameter as `param.Init` left it to the
parameter stored in `attrs->parsed`. -/
def PoolingParamParser (init : PoolingParam) : Except Failure PoolingParam :=
  if ndim init.kernel = 1 then
    let p1 := if ndim init.stride = 0 then { init with stride := Shape1 1 } else init
    let p2 := if ndim p1.pad = 0 then { p1 with pad := Shape1 0 } else p1
    pure p2
  else if ndim init.kernel = 2 then
    let p1 := if ndim init.stride = 0 then { init with stride := Shape2 1 1 } else init
    let p2 := if ndim p1.pad = 0 then { p1 with pad := Shape2 0 0 } else p1
    pure p2
  else do
    if init.global_pool = false then
      CHECK (ndim init.kernel = 3)
    let p1 := if ndim init.stride = 0 then { init with stride := Shape3 1 1 1 } else init
    let p2 := if ndim p1.pad = 0 then { p1 with pad := Shape3 0 0 0 } else p1
    pure p2

/-! ## Output counts -/

/-- `GetNumOutputs`. -/
def GetNumOutputs (cfg : Build) (param : PoolingParam) : Int :=
  if cfg.MXNET_USE_MKLDNN then
    if cfg.MKLDNNRequireWorkspace param && cfg.SupportMKLDNNPooling param then 2 else 1
  else
    1

/-- `GetNumBackInputs`. -/
def GetNumBackInputs (cfg : Build) (param : PoolingParam) : Int :=
  if cfg.MXNET_USE_MKLDNN then
    if cfg.MKLDNNRequireWorkspace param && cfg.SupportMKLDNNPooling param then 5 else 3
  else
    3

/-! ## binary32 arithmetic

The "full" convention goes through `float`.  A finite `float` is a dyadic
rational `m * 2 ^ e`; conversions and division round to nearest, ties to even,
with a 24-bit significand, gradual underflow below `2 ^ (-126)` and overflow to
infinity from `2 ^ 128`.  Zero carries no sign: the only divisor in this file
is a converted integer, which is never `-0.0`. -/

/-- A `float`: the finite value `m * 2 ^ e`, an infinity, or a NaN. -/
inductive F32 where
  | finite (m : Int) (e : Int)
  | infinity (negative : Bool)
  | nan
  deriving DecidableEq, Repr

/-- Halving `n` until it is below 2, at most `fuel` times. -/
def log2Fuel : Nat → Nat → Nat
  | 0, _ => 0
  | fuel + 1, n => if n < 2 then 0 else log2Fuel fuel (n / 2) + 1

/-- The position of the leading bit of `n`: `⌊log₂ n⌋` for `0 < n`. -/
def ilog2 (n : Nat) : Nat := log2Fuel n n

/-- The binary exponent `⌊log₂ (a / b)⌋` of a positive fraction. -/
def ratLog2 (a b : Nat) : Int :=
  let d : Int := (ilog2 a : Int) - (ilog2 b : Int)
  if 0 ≤ d then
    if b * 2 ^ d.toNat ≤ a then d else d - 1
  else
    if b ≤ a * 2 ^ (-d).toNat then d else d - 1

/-- The integer nearest to `num / den`, ties to the even one. -/
def roundNearestEven (num den : Nat) : Nat :=
  let f := num / den
  let r := num % den
  if 2 * r < den then f
  else if den < 2 * r then f + 1
  else if f % 2 = 0 then f else f + 1

/-- The exponent of the unit in the last place of the `float` nearest to
`a / b`: 23 below the binary exponent, which is held at `-126` for subnormal
values. -/
def ulpExponent (a b : Nat) : Int := max (ratLog2 a b) (-126) - 23

/-- The significand of the `float` nearest to `a / b`: the quotient in units
in the last place, rounded to nearest, ties to even. -/
def significand (a b : Nat) : Nat :=
  if 0 ≤ ulpExponent a b then roundNearestEven a (b * 2 ^ (ulpExponent a b).toNat)
  else roundNearestEven (a * 2 ^ (-ulpExponent a b).toNat) b

/-- The `float` nearest to `± a / b` for `0 < a` and `0 < b`. -/
def f32Round (negative : Bool) (a b : Nat) : F32 :=
  if 0 ≤ ulpExponent a b ∧ 2 ^ 128 ≤ significand a b * 2 ^ (ulpExponent a b).toNat then
    F32.infinity negative
  else
    F32.finite (if negative then -(significand a b : Int) else (significand a b : Int))
      (ulpExponent a b)

/-- The conversion `static_cast<float>` of an integer. -/
def f32OfInt (n : Int) : F32 :=
  if n = 0 then F32.finite 0 0 else f32Round (decide (n < 0)) n.natAbs 1

/-- The `float` division `x / y`. -/
def f32Div : F32 → F32 → F32
  | F32.nan, _ => F32.nan
  | _, F32.nan => F32.nan
  | F32.infinity _, F32.infinity _ => F32.nan
  | F32.infinity s, F32.finite m2 _ => F32.infinity (xor s (decide (m2 < 0)))
  | F32.finite _ _, F32.infinity _ => F32.finite 0 0
  | F32.finite m1 e1, F32.finite m2 e2 =>
    if m2 = 0 then
      if m1 = 0 then F32.nan else F32.infinity (decide (m1 < 0))
    else if m1 = 0 then F32.finite 0 0
    else
      f32Round (xor (decide (m1 < 0)) (decide (m2 < 0)))
        (m1.natAbs * 2 ^ (e1 - e2).toNat) (m2.natAbs * 2 ^ (e2 - e1).toNat)

/-- The function `ceil` on a `float`; the result is exact. -/
def f32Ceil : F32 → F32
  | F32.finite m e =>
    if 0 ≤ e then F32.finite m e else F32.finite (-((-m) / (2 ^ (-e).toNat : Int))) 0
  | x => x

/-- The conversion `static_cast<int>` of a `float`: truncation toward zero.
C++ leaves the conversion of a value outside the range of `int` undefined;
the x86 conversion instruction yields `-2 ^ 31` there, and so does this
function. -/
def f32ToInt : F32 → Int
  | F32.finite m e =>
    let v : Int := if 0 ≤ e then m * 2 ^ e.toNat else Int.tdiv m (2 ^ (-e).toNat)
    if -(2 ^ 31) ≤ v ∧ v < 2 ^ 31 then v else -(2 ^ 31)
  | _ => -(2 ^ 31)

/-- The expression of the "full" convention,
`static_cast<int>(ceil(static_cast<float>(n) / s))` for integers `n` and `s`. -/
def ceilDivF32 (n s : Int) : Int :=
  f32ToInt (f32Ceil (f32Div (f32OfInt n) (f32OfInt s)))

/-! ## `PoolingShape` -/

/-- The loop `for (size_t i{2}; i < dshape.ndim(); i++) oshape[i] = 1;`,
started at index `i`, with `n` iterations left. -/
def setOnesFrom : Nat → Nat → TShape → Except Failure TShape
  | _, 0, oshape => pure oshape
  | i, n + 1, oshape => do
    let oshape ← dimSet oshape i 1
    setOnesFrom (i + 1) n oshape

/-- The statements that end every branch: `out_shape->clear()`, the
`push_back` of the output shape and, in an MKLDNN build that needs it, the
`push_back` of the workspace shape. -/
def saveOutputShape (cfg : Build) (param : PoolingParam) (oshape : TShape)
    (_out_shape : List TShape) : List TShape :=
  let cleared : List TShape := []
  let out := cleared ++ [oshape]
  if cfg.MXNET_USE_MKLDNN then
    if cfg.MKLDNNRequireWorkspace param && cfg.SupportMKLDNNPooling param then
      out ++ [oshape]
    else out
  else out

/-- Whether an integer is a `dim_t = int64_t` value. -/
abbrev fitsDim (x : Int) : Prop := -2 ^ 63 ≤ x ∧ x < 2 ^ 63

/-- The `dim_t` value that holds the low 64 bits of an integer in two's
complement. -/
def dimWrap (x : Int) : Int := (x + 2 ^ 63) % 2 ^ 64 - 2 ^ 63

/-- Addition of `dim_t` values: the sum wraps to 64 bits.  An integer that is
no `dim_t` value cannot be stored in a `TShape`; where a list of the model
holds one, the operation is left exact. -/
def dimAdd (a b : Int) : Int :=
  if fitsDim a ∧ fitsDim b then dimWrap (a + b) else a + b

/-- Subtraction of `dim_t` values: the difference wraps to 64 bits (other
integers as in `dimAdd`). -/
def dimSub (a b : Int) : Int :=
  if fitsDim a ∧ fitsDim b then dimWrap (a - b) else a - b

/-- Multiplication of `dim_t` values: the product wraps to 64 bits (other
integers as in `dimAdd`). -/
def dimMul (a b : Int) : Int :=
  if fitsDim a ∧ fitsDim b then dimWrap (a * b) else a * b

/-- Whether the division of `dim_t` values has no defined result: the divisor
is zero, or the quotient `-2 ^ 63 / -1` is not a `dim_t` value. -/
def divUndefined (a b : Int) : Bool :=
  decide (b = 0) || (decide (a = -2 ^ 63) && decide (b = -1))

/-- Integer division of `dim_t` values: truncation toward zero. -/
def dimDiv (a b : Int) : Except Failure Int :=
  if divUndefined a b then throw Failure.undefined else pure (Int.tdiv a b)

/-- The expression `dshape[i + 2] + 2 * param.pad[i]` on `dim_t` values. -/
def paddedInput (d p : Int) : Int := dimAdd d (dimMul 2 p)

/-- The expression `dshape[i + 2] + 2 * param.pad[i] - param.kernel[i]` on
`dim_t` values. -/
def poolDividend (d p k : Int) : Int := dimSub (paddedInput d p) k

/-- The condition `param.kernel[i] <= dshape[i + 2] + 2 * param.pad[i]` that
is checked for every axis `i` of the kernel. -/
def kernelFits (param : PoolingParam) (dshape : TShape) (i : Nat) : Except Failure Bool := do
  let k ← dimAt param.kernel i
  let d ← dimAt dshape (i + 2)
  let p ← dimAt param.pad i
  pure (decide (k ≤ paddedInput d p))

/-- The expression of the "valid" convention for axis `i`,
`1 + (dshape[i + 2] + 2 * param.pad[i] - param.kernel[i]) / param.stride[i]`. -/
def validDim (param : PoolingParam) (dshape : TShape) (i : Nat) : Except Failure Int := do
  let d ← dimAt dshape (i + 2)
  let p ← dimAt param.pad i
  let k ← dimAt param.kernel i
  let s ← dimAt param.stride i
  let q ← dimDiv (poolDividend d p k) s
  pure (dimAdd 1 q)

/-- The expression of the other convention for axis `i`,
`1 + static_cast<int>(ceil(static_cast<float>(dshape[i + 2] + 2 * param.pad[i] -
param.kernel[i]) / param.stride[i]))`; the dividend is a `dim_t` value before
it is cast, and the sum `1 + int` cannot overflow, the converted value being
`-2 ^ 31` or a `float` below `2 ^ 31`. -/
def fullDim (param : PoolingParam) (dshape : TShape) (i : Nat) : Except Failure Int := do
  let d ← dimAt dshape (i + 2)
  let p ← dimAt param.pad i
  let k ← dimAt param.kernel i
  let s ← dimAt param.stride i
  pure (1 + ceilDivF32 (poolDividend d p k) s)

/-- `PoolingShape`: from the parsed parameter, the input shapes and the
output shapes held before the call, to the returned flag and the output
shapes held after it. -/
def PoolingShape (cfg : Build) (param : PoolingParam) (in_shape out_shape : List TShape) :
    Except Failure (Bool × List TShape) := do
  CHECK (in_shape.length = 1)
  let dshape ← vecAt in_shape 0
  CHECK (3 ≤ ndim dshape)
  CHECK (ndim dshape ≤ 5)
  let oshape := dshape
  if ndim dshape = 0 then pure (false, out_shape)
  else if param.global_pool then do
    let oshape ← setOnesFrom 2 (ndim dshape - 2) oshape
    pure (true, saveOutputShape cfg param oshape out_shape)
  else if ndim param.kernel = 1 then do
    CHECK (ndim dshape = 3)
    CHECK (← kernelFits param dshape 0)
    let oshape ←
      if param.pooling_convention = PoolingConvention.kValid then do
        dimSet oshape 2 (← validDim param dshape 0)
      else do
        dimSet oshape 2 (← fullDim param dshape 0)
    pure (true, saveOutputShape cfg param oshape out_shape)
  else if ndim param.kernel = 2 then do
    CHECK (ndim dshape = 4)
    CHECK (← kernelFits param dshape 0)
    CHECK (← kernelFits param dshape 1)
    let oshape ←
      if param.pooling_convention = PoolingConvention.kValid then do
        let oshape ← dimSet oshape 2 (← validDim param dshape 0)
        dimSet oshape 3 (← validDim param dshape 1)
      else do
        let oshape ← dimSet oshape 2 (← fullDim param dshape 0)
        dimSet oshape 3 (← fullDim param dshape 1)
    pure (true, saveOutputShape cfg param oshape out_shape)
  else if ndim param.kernel = 3 then do
    CHECK (ndim dshape = 5)
    CHECK (← kernelFits param dshape 0)
    CHECK (← kernelFits param dshape 1)
    CHECK (← kernelFits param dshape 2)
    let oshape ←
      if param.pooling_convention = PoolingConvention.kValid then do
        let oshape ← dimSet oshape 2 (← validDim param dshape 0)
        let oshape ← dimSet oshape 3 (← validDim param dshape 1)
        dimSet oshape 4 (← validDim param dshape 2)
      else do
        let oshape ← dimSet oshape 2 (← fullDim param dshape 0)
        let oshape ← dimSet oshape 3 (← fullDim param dshape 1)
        dimSet oshape 4 (← fullDim param dshape 2)
    pure (true, saveOutputShape cfg param oshape out_shape)
  else
    pure (true, out_shape)

/-! ## CPU dispatch (MKLDNN build)

`PoolingComputeExCPU` and `PoolingGradComputeExCPU` exist only when
`MXNET_USE_MKLDNN == 1`.  Their effect is the sequence of calls they make, in
order.  The arrays and request types are abstract; `attrs` is represented by
the parsed parameter and `ctx` is left out.  The macros `MKLDNN_OPCHECK_INIT`
and `MKLDNN_OPCHECK_RUN` come from the absent MKLDNN header and are recorded
as steps of their own. -/

/-- The canonical kernels that are passed on by name. -/
inductive FCompute where
  | PoolingCompute_cpu
  | PoolingGradCompute_cpu
  deriving DecidableEq, Repr

/-- The helpers of the absent headers that look at an array. -/
structure ArraySupport (NDArray : Type) where
  shape : NDArray → TShape
  SupportMKLDNN : NDArray → Bool
  SupportMKLDNNPooling : PoolingParam → TShape → Bool

/-- One call made by a dispatch function, with its arguments. -/
inductive Call (NDArray OpReqType : Type) where
  | MKLDNN_OPCHECK_INIT (backward : Bool) (num_checks : Nat)
      (inputs outputs : List NDArray)
  | MKLDNNPoolingCompute (param : PoolingParam) (in_data : NDArray) (req : OpReqType)
      (out_data : NDArray) (workspace : Option NDArray)
  | MKLDNNPoolingGradCompute (param : PoolingParam) (out_grad in_data : NDArray)
      (workspace : Option NDArray) (req : OpReqType) (in_grad : NDArray)
  | MKLDNN_OPCHECK_RUN (fn : FCompute) (inputs : List NDArray) (req : List OpReqType)
      (outputs : List NDArray)
  | FallBackCompute (fn : FCompute) (inputs : List NDArray) (req : List OpReqType)
      (outputs : List NDArray)
  deriving DecidableEq, Repr

/-- Whether a call is one of the two ways of computing the operator: the
MKLDNN kernel or the fallback to the canonical kernel. -/
def Call.isComputePath {NDArray OpReqType : Type} : Call NDArray OpReqType → Bool
  | Call.MKLDNNPoolingCompute .. => true
  | Call.MKLDNNPoolingGradCompute .. => true
  | Call.FallBackCompute .. => true
  | _ => false

/-- Whether a call is to one of the MKLDNN kernels. -/
def Call.isMKLDNNKernel {NDArray OpReqType : Type} : Call NDArray OpReqType → Bool
  | Call.MKLDNNPoolingCompute .. => true
  | Call.MKLDNNPoolingGradCompute .. => true
  | _ => false

/-- The first statements of `PoolingComputeExCPU`: the binding of
`workspace`. -/
def forwardWorkspace {NDArray : Type} (cfg : Build) (param : PoolingParam)
    (outputs : List NDArray) : Except Failure (Option NDArray) :=
  if cfg.MKLDNNRequireWorkspace param then do
    CHECK (1 < outputs.length)
    let w ← vecAt outputs 1
    pure (some w)
  else
    pure none

/-- `PoolingComputeExCPU`. -/
def PoolingComputeExCPU {NDArray OpReqType : Type} (cfg : Build) (sup : ArraySupport NDArray)
    (param : PoolingParam) (inputs : List NDArray) (req : List OpReqType)
    (outputs : List NDArray) : Except Failure (List (Call NDArray OpReqType)) := do
  let workspace ← forwardWorkspace cfg param outputs
  let in0 ← vecAt inputs 0
  if sup.SupportMKLDNN in0 && sup.SupportMKLDNNPooling param (sup.shape in0) then do
    let req0 ← vecAt req 0
    let out0 ← vecAt outputs 0
    pure [Call.MKLDNN_OPCHECK_INIT false 1 inputs outputs,
          Call.MKLDNNPoolingCompute param in0 req0 out0 workspace,
          Call.MKLDNN_OPCHECK_RUN FCompute.PoolingCompute_cpu inputs req outputs]
  else
    pure [Call.FallBackCompute FCompute.PoolingCompute_cpu inputs req outputs]

/-- The arrays `PoolingGradComputeExCPU` picks out of `inputs`. -/
structure GradInputs (NDArray : Type) where
  out_grad : NDArray
  in_data : NDArray
  workspace : Option NDArray
  deriving DecidableEq, Repr

/-- The first statements of `PoolingGradComputeExCPU`: the bindings of
`out_grad`, `workspace` and `in_data`.  The reference `out_grad` is bound
before the size of `inputs` is checked and is first read after it. -/
def gradInputs {NDArray : Type} (cfg : Build) (param : PoolingParam)
    (inputs : List NDArray) : Except Failure (GradInputs NDArray) :=
  if cfg.MKLDNNRequireWorkspace param then do
    CHECK (inputs.length = 5)
    let in_data ← vecAt inputs 2
    let workspace ← vecAt inputs 4
    let out_grad ← vecAt inputs 0
    pure ⟨out_grad, in_data, some workspace⟩
  else do
    CHECK (inputs.length = 3)
    let in_data ← vecAt inputs 1
    let out_grad ← vecAt inputs 0
    pure ⟨out_grad, in_data, none⟩

/-- `PoolingGradComputeExCPU`. -/
def PoolingGradComputeExCPU {NDArray OpReqType : Type} (cfg : Build)
    (sup : ArraySupport NDArray) (param : PoolingParam) (inputs : List NDArray)
    (req : List OpReqType) (outputs : List NDArray) :
    Except Failure (List (Call NDArray OpReqType)) := do
  let sel ← gradInputs cfg param inputs
  let in0 ← vecAt inputs 0
  if sup.SupportMKLDNN in0 && sup.SupportMKLDNNPooling param (sup.shape in0) then do
    let in_grad ← vecAt outputs 0
    let req0 ← vecAt req 0
    pure [Call.MKLDNN_OPCHECK_INIT true outputs.length inputs outputs,
          Call.MKLDNNPoolingGradCompute param sel.out_grad sel.in_data sel.workspace req0
            in_grad,
          Call.MKLDNN_OPCHECK_RUN FCompute.PoolingGradCompute_cpu inputs req outputs]
  else
    pure [Call.FallBackCompute FCompute.PoolingGradCompute_cpu inputs req outputs]

/-! ## Specification-side formulas -/

/-- The formula of the operator description for the "valid" convention,
`f(x, k, p, s) = floor((x+2*p-k)/s)+1`, with the exact quotient. -/
def validFormula (x k p s : Int) : Int := ⌊((x + 2 * p - k : Int) : ℚ) / (s : ℚ)⌋ + 1

/-- The formula of the operator description for the "full" convention,
`f(x, k, p, s) = ceil((x+2*p-k)/s)+1`, with the exact quotient. -/
def fullFormula (x k p s : Int) : Int := ⌈((x + 2 * p - k : Int) : ℚ) / (s : ℚ)⌉ + 1

/-- The rank of the stride and pad that the parser fills in: the kernel's rank
when it is 1 or 2, and 3 otherwise. -/
def defaultRank (kernel : TShape) : Nat :=
  if ndim kernel = 1 then 1 else if ndim kernel = 2 then 2 else 3

/-- What a shape keeps when some of its dimensions from index 2 on are
overwritten. -/
def SameFrame (oshape dshape : TShape) : Prop :=
  ndim oshape = ndim dshape ∧ oshape[0]? = dshape[0]? ∧ oshape[1]? = dshape[1]?

/-- The cases in which `PoolingShape` is said to be aborted by a `CHECK`: the
number of input shapes is not 1, or, for global pooling, the input rank is
outside 3..5 and, for other pooling, the input rank is not the kernel's rank
plus 2 or the kernel exceeds the padded input on some axis. -/
def PoolingShapeAborts (param : PoolingParam) (in_shape : List TShape) : Prop :=
  in_shape.length ≠ 1 ∨
    ∃ dshape, in_shape = [dshape] ∧
      if param.global_pool = true then ndim dshape < 3 ∨ 5 < ndim dshape
      else
        ndim dshape ≠ ndim param.kernel + 2 ∨
          ∃ i, i < ndim param.kernel ∧
            param.kernel.getD i 0 > dshape.getD (i + 2) 0 + 2 * param.pad.getD i 0

/-! ## Concrete inputs used to exercise the theorems -/

/-- A build without MKLDNN. -/
def plainBuild : Build := ⟨false, fun _ => false, fun _ => false⟩

/-- An MKLDNN build in which every parameter is supported and needs a
workspace. -/
def mkldnnBuild : Build := ⟨true, fun _ => true, fun _ => true⟩

/-- A 2-D max pooling with kernel 2x2, stride 2x2 and no padding. -/
def pool2x2 (conv : PoolingConvention) : PoolingParam :=
  ⟨[2, 2], [2, 2], [0, 0], PoolType.kMaxPooling, conv, false⟩

/-- Array helpers that support every array; arrays are numbered. -/
def allSupport : ArraySupport Nat := ⟨fun _ => [], fun _ => true, fun _ _ => true⟩

/-- A global pooling with nothing else specified, as the parser stores it. -/
def globalPool : PoolingParam :=
  ⟨[], [1, 1, 1], [0, 0, 0], PoolType.kAvgPooling, PoolingConvention.kValid, true⟩

/-- A 2-D pooling whose kernel is the whole 7x8 image. -/
def pool7x8 : PoolingParam :=
  ⟨[7, 8], [1, 1], [0, 0], PoolType.kAvgPooling, PoolingConvention.kFull, false⟩

/-- A 1-D pooling with kernel 2, stride 1 and pad 1 in the "valid"
convention. -/
def poolOverflow : PoolingParam :=
  ⟨[2], [1], [1], PoolType.kMaxPooling, PoolingConvention.kValid, false⟩

/-- A 1-D pooling with kernel 1 and stride 1 in the "full" convention. -/
def pool1Full : PoolingParam :=
  ⟨[1], [1], [0], PoolType.kMaxPooling, PoolingConvention.kFull, false⟩

/-! ## Layout core: descriptors, memories, buffers and the stream

The `NDArray` class, the MKLDNN memory functions and the MKLDNN stream are not
among the sources; `tests/cpp/operator/mkldnn.cc` only calls them.  They are
modelled from the specification of the layout core (its sections 3, 4 and 9)
and observed after the submitted work has completed.  The element type is
`mshadow::default_real_t` wherever contents are read or written; the type of
its values is the parameter `α`, whose default value stands for memory that was
never written. -/

/-- The shape of an array in the layout core: its dimensions in order, none of
them negative. -/
abbrev Dims := List Nat

/-- The element count `TShape::Size()`. -/
def Size (s : Dims) : Nat := s.prod

/-- The element types the test uses. -/
inductive DType where
  | kFloat32
  | kUint8
  deriving DecidableEq, Repr

/-- The element type `mshadow::default_type_flag`. -/
def default_type_flag : DType := DType.kFloat32

/-- `GetTypeSize`: the size of an element in bytes. -/
def GetTypeSize : DType → Nat
  | DType.kFloat32 => 4
  | DType.kUint8 => 1

/-- `sizeof(mshadow::default_real_t)`. -/
def sizeofReal : Nat := GetTypeSize default_type_flag

/-- Modelled from the spec: the LayoutDescriptor of section 3, the value type
behind `mkldnn::memory::primitive_desc`, which is not among the sources:
"dimensions: ordered sequence of positive integers, element type, format tag,
byte size".  The element type is fixed and left out. -/
structure LayoutDescriptor where
  dims : Dims
  format : Nat
  deriving DecidableEq, Repr

/-- Modelled from the spec: the total element count of a descriptor, by which
"two descriptors are compatible". -/
def LayoutDescriptor.count (pd : LayoutDescriptor) : Nat := Size pd.dims

/-- Modelled from the spec: the required byte size of a descriptor
(`get_size`), "computed deterministically from the format tag and dimensions";
no format of the model pads. -/
def LayoutDescriptor.get_size (pd : LayoutDescriptor) : Nat := pd.count * sizeofReal

/-- Modelled from the spec: the vendor library behind the Engine Handle, which
is not among the sources.  `GetDefaultFormat` is the "function [that] maps a
descriptor to its default/canonical format tag", `canonicalFormat` is the
canonical format tag for given dimensions, and `arrangement pd` is the
physical arrangement of the layout, whose internal ordering only the library
knows: for every physical position, the row-major index of the element stored
there. -/
structure Engine where
  canonicalFormat : Dims → Nat
  GetDefaultFormat : LayoutDescriptor → Nat
  arrangement : LayoutDescriptor → List Nat

/-- Modelled from the spec: what is assumed of the vendor library.  Every
layout arranges exactly the elements of the canonical layout, the canonical
layout is "the standard dense, row-major physical arrangement", and the
canonical format of a descriptor is its own canonical format. -/
def Engine.Valid (E : Engine) : Prop :=
  ∀ pd : LayoutDescriptor,
    (E.arrangement pd).Perm (List.range pd.count) ∧
    (pd.format = E.GetDefaultFormat pd → E.arrangement pd = List.range pd.count) ∧
    E.GetDefaultFormat ⟨pd.dims, E.GetDefaultFormat pd⟩ = E.GetDefaultFormat pd ∧
    E.GetDefaultFormat ⟨pd.dims, E.canonicalFormat pd.dims⟩ = E.canonicalFormat pd.dims

/-- Modelled from the spec: a memory of the vendor library (`mkldnn::memory`,
not among the sources): a descriptor and the contents in physical order. -/
structure Memory (α : Type) where
  pd : LayoutDescriptor
  handle : List α
  deriving DecidableEq, Repr

/-- Modelled from the spec: the contents of a memory in "the standard dense,
row-major" order of its dimensions. -/
def rowMajor {α : Type} [Inhabited α] (E : Engine) (mem : Memory α) : List α :=
  (List.range mem.pd.count).map
    (fun j => mem.handle.getD ((E.arrangement mem.pd).indexOf j) default)

/-- Modelled from the spec: the physical contents that hold the given row-major
contents in the layout of a descriptor. -/
def arrange {α : Type} [Inhabited α] (E : Engine) (pd : LayoutDescriptor)
    (logical : List α) : List α :=
  (E.arrangement pd).map (fun j => logical.getD j default)

/-- Modelled from the spec: the "full engine-executed reorder"
(`mkldnn::reorder`, not among the sources) of a memory into a compatible
descriptor: the destination holds the same row-major contents. -/
def reorder {α : Type} [Inhabited α] (E : Engine) (src : Memory α)
    (dst : LayoutDescriptor) : Memory α :=
  ⟨dst, arrange E dst (rowMajor E src)⟩

/-- Modelled from the spec: the error taxonomy of section 7, without the
engine failure. -/
inductive LayoutError where
  | InvalidLayoutError
  | IncompatibleLayoutError
  | ShapeMismatchError
  deriving DecidableEq, Repr

/-- Modelled from the spec: the content of an owning allocation, "a tagged
variant {Canonical, Shadowed(descriptor, handle)}" (section 9). -/
inductive Chunk (α : Type) where
  | canonical (cells : List α)
  | shadowed (mem : Memory α)
  deriving DecidableEq, Repr

/-- Modelled from the spec: the ownership of a TensorBuffer, "exclusive-owned
region | view into another TensorBuffer | aliased/reused region with
reinterpreted element type". -/
inductive Ownership where
  | owned
  | view
  | reused
  deriving DecidableEq, Repr

/-- Modelled from the spec: the TensorBuffer of section 3 (`NDArray`, not among
the sources): the owning allocation it refers to, the offset of its range in
elements, its logical shape, its element type and its ownership. -/
structure NDArray (α : Type) where
  chunk : Chunk α
  offset : Nat
  shape : Dims
  dtype : DType
  ownership : Ownership
  deriving DecidableEq, Repr

/-- Modelled from the spec: the canonical contents of an owning allocation,
"reordering from the shadow layout first". -/
def canonicalCells {α : Type} [Inhabited α] (E : Engine) : Chunk α → List α
  | Chunk.canonical cells => cells
  | Chunk.shadowed mem => rowMajor E mem

/-- Modelled from the spec: the constructor `NDArray(shape, ctx, delay_alloc,
dtype)`: an exclusive-owned region for the shape, whose cells were never
written.  The cells are counted in elements of the default type. -/
def NDArray.alloc {α : Type} [Inhabited α] (shape : Dims) (dtype : DType) : NDArray α :=
  ⟨Chunk.canonical (List.replicate (Size shape * GetTypeSize dtype / sizeofReal) default), 0,
    shape, dtype, Ownership.owned⟩

/-- Modelled from the spec: `get_default_data()`, the data of the buffer "in
canonical layout", "contiguous and [matching] the buffer's logical shape and
element order"; a view is re-derived from the canonical form of the full owning
storage. -/
def NDArray.data {α : Type} [Inhabited α] (E : Engine) (arr : NDArray α) : List α :=
  ((canonicalCells E arr.chunk).drop arr.offset).take (Size arr.shape)

/-- Modelled from the spec: a write through the canonical path, which replaces
the range of the buffer and clears "the Shadowed variant back to Canonical". -/
def NDArray.write {α : Type} [Inhabited α] (E : Engine) (arr : NDArray α) (xs : List α) :
    NDArray α :=
  { arr with
    chunk := Chunk.canonical
      ((canonicalCells E arr.chunk).take arr.offset ++ xs ++
        (canonicalCells E arr.chunk).drop (arr.offset + xs.length)) }

/-- Modelled from the spec: `Reorder2Default`, the buffer realised in the
canonical layout as a buffer of its own. -/
def NDArray.Reorder2Default {α : Type} [Inhabited α] (E : Engine) (arr : NDArray α) :
    NDArray α :=
  ⟨Chunk.canonical (arr.data E), 0, arr.shape, arr.dtype, Ownership.owned⟩

/-- Modelled from the spec: whether the buffer is a view, "a buffer that shares
storage with another buffer (slice or reinterpretation) without owning it". -/
def NDArray.IsView {α : Type} (arr : NDArray α) : Bool :=
  decide (arr.ownership = Ownership.view)

/-- Modelled from the spec: whether the owning allocation is in the Shadowed
variant. -/
def NDArray.IsMKLDNNData {α : Type} (arr : NDArray α) : Bool :=
  match arr.chunk with
  | Chunk.shadowed _ => true
  | Chunk.canonical _ => false

/-- Modelled from the spec: `Slice(begin, end)`, the view of the rows from
`begin` up to `end` of the buffer. -/
def NDArray.Slice {α : Type} (arr : NDArray α) (first last : Nat) : NDArray α :=
  { arr with
    offset := arr.offset + first * Size arr.shape.tail
    shape := (last - first) :: arr.shape.tail
    ownership := Ownership.view }

/-- Modelled from the spec: `AsArray(shape, dtype)`, the "aliased/reused region
with reinterpreted element type": the same storage under another shape and
element type. -/
def NDArray.AsArray {α : Type} (arr : NDArray α) (shape : Dims) (dtype : DType) : NDArray α :=
  { arr with shape := shape, dtype := dtype, ownership := Ownership.reused }

/-- Modelled from the spec: `get_layout_data()` (`GetMKLDNNData`), the data "in
whatever layout is currently attached (shadow if present, else canonical)"; a
view resolves the request "through its canonical representation first". -/
def NDArray.GetMKLDNNData {α : Type} [Inhabited α] (E : Engine) (arr : NDArray α) :
    Memory α :=
  match arr.chunk with
  | Chunk.shadowed mem =>
    if arr.IsView then ⟨⟨arr.shape, E.canonicalFormat arr.shape⟩, arr.data E⟩ else mem
  | Chunk.canonical _ => ⟨⟨arr.shape, E.canonicalFormat arr.shape⟩, arr.data E⟩

/-- Modelled from the spec: `MKLDNNDataReorderAsync(pd)` followed by the wait
for the buffer to be readable: the owning allocation is converted in place to
the layout of the descriptor, that is, the shadow is attached unless the
layout is the canonical one. -/
def NDArray.MKLDNNDataReorderAsync {α : Type} [Inhabited α] (E : Engine) (arr : NDArray α)
    (pd : LayoutDescriptor) : NDArray α :=
  if pd.format = E.GetDefaultFormat pd then
    { arr with chunk := Chunk.canonical (canonicalCells E arr.chunk) }
  else
    { arr with chunk := Chunk.shadowed ⟨pd, arrange E pd (canonicalCells E arr.chunk)⟩ }

/-- Modelled from the spec: `copy_from(source_layout_memory)` (`CopyFrom`),
which "overwrites the buffer's content with data from a layout-described
source" and invalidates the shadow; "if shapes' element counts differ, fails
with ShapeMismatchError". -/
def NDArray.CopyFrom {α : Type} [Inhabited α] (E : Engine) (arr : NDArray α)
    (mem : Memory α) : Except LayoutError (NDArray α) :=
  if mem.pd.count ≠ Size arr.shape then throw LayoutError.ShapeMismatchError
  else pure (arr.write E (rowMajor E mem))

/-- Modelled from the spec: the "minimal conversion description" of a
ConversionTask, a "reshape view" or "a full engine-executed reorder". -/
inductive ConversionKind where
  | reshapeView
  | fullReorder
  deriving DecidableEq, Repr

/-- Modelled from the spec: the ConversionTask of section 3, with its source
memory, its destination descriptor and its conversion description. -/
structure ConversionTask (α : Type) where
  source : Memory α
  destination : LayoutDescriptor
  kind : ConversionKind
  deriving DecidableEq, Repr

/-- Modelled from the spec: the states of the SubmissionStream. -/
inductive StreamState where
  | accumulating
  | submitted
  deriving DecidableEq, Repr

/-- Modelled from the spec: the SubmissionStream (`MKLDNNStream`, not among the
sources): its state, "an ordered sequence of pending ConversionTasks" and the
destination memories of the batch executed last. -/
structure MKLDNNStream (α : Type) where
  state : StreamState
  pending : List (ConversionTask α)
  completed : List (Memory α)
  deriving DecidableEq, Repr

/-- Modelled from the spec: the SubmissionStream before anything was enqueued,
in the state accumulating. -/
def MKLDNNStream.fresh {α : Type} : MKLDNNStream α := ⟨StreamState.accumulating, [], []⟩

/-- Modelled from the spec: the execution of one ConversionTask by the
engine. -/
def ConversionTask.run {α : Type} [Inhabited α] (E : Engine) (task : ConversionTask α) :
    Memory α :=
  match task.kind with
  | ConversionKind.reshapeView => ⟨task.destination, task.source.handle⟩
  | ConversionKind.fullReorder => reorder E task.source task.destination

/-- Modelled from the spec: `submit`, which "hands the batch to the Engine for
execution"; the stream is observed after all tasks of the batch have
completed, so the flag makes no difference to what is observed. -/
def MKLDNNStream.Submit {α : Type} [Inhabited α] (E : Engine) (stream : MKLDNNStream α)
    (_flag : Bool) : MKLDNNStream α :=
  ⟨StreamState.submitted, [], stream.pending.map (ConversionTask.run E)⟩

/-- Modelled from the spec: the invariants of a TensorBuffer (section 3): "a
buffer's logical-shape element count ≤ its underlying storage element count",
and the descriptor of the shadow of a buffer that is not a view has the
element count of the buffer. -/
def NDArray.WellFormed {α : Type} [Inhabited α] (E : Engine) (arr : NDArray α) : Prop :=
  arr.offset + Size arr.shape ≤ (canonicalCells E arr.chunk).length ∧
    (arr.IsMKLDNNData = true → arr.IsView = false →
      arr.offset = 0 ∧ (canonicalCells E arr.chunk).length = Size arr.shape)

/-! ## The tests of the layout core (`tests/cpp/operator/mkldnn.cc`) -/

/-- `InitArray`: fills the array in the default layout; `value i` is what the
loop stores at index `i`: the index converted to the element type, or, with
`is_rand`, the number `std::rand()` returns there. -/
def InitArray {α : Type} [Inhabited α] (E : Engine) (arr : NDArray α) (value : Nat → α) :
    NDArray α :=
  let size := Size arr.shape
  arr.write E ((List.range size).map value)

/-- `InitMKLDNNArray`: fills the array as `InitArray` does and converts it in
place to the layout of the descriptor. -/
def InitMKLDNNArray {α : Type} [Inhabited α] (E : Engine) (arr : NDArray α)
    (pd : LayoutDescriptor) (value : Nat → α) : NDArray α :=
  let size := Size arr.shape
  let arr := arr.write E ((List.range size).map value)
  arr.MKLDNNDataReorderAsync E pd

/-- The shapes and descriptors `GetTestArrayShapes` returns; the special
formats among them are chosen by the vendor library for the hardware. -/
structure TestArrayShapes where
  shapes : List Dims
  pds : List LayoutDescriptor
  deriving DecidableEq, Repr

/-- `GetTestInputArrays`: for every shape a plain array and, for every
descriptor of the same element count, an array in that layout and the slice of
such an array without its first and last row. -/
def GetTestInputArrays {α : Type} [Inhabited α] (E : Engine) (cast : Nat → α)
    (tas : TestArrayShapes) : List (NDArray α) :=
  tas.shapes.flatMap (fun shape =>
    InitArray E (NDArray.alloc shape default_type_flag) cast ::
      tas.pds.flatMap (fun pd =>
        if Size shape ≠ pd.get_size / sizeofReal then []
        else
          let arr := InitMKLDNNArray E (NDArray.alloc shape default_type_flag) pd cast
          [InitMKLDNNArray E (NDArray.alloc shape default_type_flag) pd cast,
            arr.Slice 1 (arr.shape.headD 0 - 1)]))

/-- The loop over the descriptors in `GetTestOutputArrays`: for every
descriptor of the same element count an array in that layout (types 2, 3) and
a reused array in that layout (types 8, 9).  `rand` is the sequence of numbers
`std::rand()` returns and `drawn` counts the numbers drawn so far. -/
def outputArraysOfLayouts {α : Type} [Inhabited α] (E : Engine) (rand : Nat → α)
    (shape : Dims) : List LayoutDescriptor → Nat → List (NDArray α)
  | [], _ => []
  | pd :: pds, drawn =>
    if Size shape ≠ pd.get_size / sizeofReal then outputArraysOfLayouts E rand shape pds drawn
    else
      let arr23 := InitMKLDNNArray E (NDArray.alloc shape default_type_flag) pd
        (fun i => rand (drawn + i))
      let s : Dims := [Size shape]
      let arr : NDArray α := NDArray.alloc s default_type_flag
      let arr := arr.AsArray shape arr.dtype
      let arr89 := InitMKLDNNArray E arr pd (fun i => rand (drawn + Size shape + i))
      arr23 :: arr89 :: outputArraysOfLayouts E rand shape pds (drawn + Size shape + Size shape)

/-- `GetTestOutputArrays`: the output arrays for a shape, of the types 1, 4, 5,
6 and 7 and, per descriptor, 2, 3, 8 and 9, filled with numbers drawn from
`std::rand()`. -/
def GetTestOutputArrays {α : Type} [Inhabited α] (E : Engine) (rand : Nat → α)
    (shape : Dims) (pds : List LayoutDescriptor) (drawn : Nat) : List (NDArray α) :=
  let arr1 := InitArray E (NDArray.alloc shape default_type_flag) (fun i => rand (drawn + i))
  let drawn := drawn + Size shape
  let tmp_shape := shape.set 0 (shape.headD 0 * 2)
  let arr0 := InitArray E (NDArray.alloc tmp_shape default_type_flag) (fun i => rand (drawn + i))
  let drawn := drawn + Size tmp_shape
  let arr4 := arr0.Slice 1 (shape.headD 0 + 1)
  let s : Dims := [Size shape]
  let arr1r : NDArray α := NDArray.alloc s default_type_flag
  let arr1r := arr1r.AsArray shape arr1r.dtype
  let arr5 := InitArray E arr1r (fun i => rand (drawn + i))
  let drawn := drawn + Size shape
  let s : Dims := [Size shape * GetTypeSize default_type_flag]
  let arr2 : NDArray α := NDArray.alloc s DType.kUint8
  let arr2 := arr2.AsArray shape default_type_flag
  let arr6 := InitArray E arr2 (fun i => rand (drawn + i))
  let drawn := drawn + Size shape
  let s : Dims := [Size shape * GetTypeSize default_type_flag * 2]
  let arr3 : NDArray α := NDArray.alloc s DType.kUint8
  let tmp_shape := shape.set 0 (shape.headD 0 * 2)
  let arr3 := arr3.AsArray tmp_shape default_type_flag
  let arr3 := InitArray E arr3 (fun i => rand (drawn + i))
  let drawn := drawn + Size tmp_shape
  let arr7 := arr3.Slice 1 (shape.headD 0 + 1)
  [arr1, arr4, arr5, arr6, arr7] ++ outputArraysOfLayouts E rand shape pds drawn

/-- The outcome of the two expectations of `VerifyCopyResult`. -/
structure CopyCheck where
  same_size : Bool
  same_bytes : Bool
  deriving DecidableEq, Repr

/-- `VerifyCopyResult`: both arrays are realised in the default layout; they
are expected to have the same element count and the same contents over the
element count of the first. -/
def VerifyCopyResult {α : Type} [DecidableEq α] [Inhabited α] (E : Engine)
    (in_arrs : List (NDArray α)) (arr : NDArray α) : Option CopyCheck :=
  match in_arrs[0]? with
  | none => none
  | some in0 =>
    let tmp1 := in0.Reorder2Default E
    let tmp2 := arr.Reorder2Default E
    let d1 := tmp1.data E
    let d2 := tmp2.data E
    some ⟨decide (Size tmp1.shape = Size tmp2.shape),
      decide (d1.take (Size tmp1.shape) = d2.take (Size tmp1.shape))⟩

/-- `TEST(MKLDNN_NDArray, CopyFrom)`, the body for an input array and an output
array: the outcome of `VerifyCopyResult` and the stream afterwards. -/
def copyFromBody {α : Type} [DecidableEq α] [Inhabited α] (E : Engine)
    (in_arr out_arr : NDArray α) (stream : MKLDNNStream α) :
    Except LayoutError (Option CopyCheck × MKLDNNStream α) := do
  let in_arr := if in_arr.IsMKLDNNData && in_arr.IsView then in_arr.Reorder2Default E else in_arr
  let mem := in_arr.GetMKLDNNData E
  let out_arr ← out_arr.CopyFrom E mem
  let stream := stream.Submit E true
  let inputs := [in_arr]
  pure (VerifyCopyResult E inputs out_arr, stream)

/-- An engine with one special format besides the canonical format 0: every
other format stores the elements in reverse order. -/
def reversingEngine : Engine :=
  ⟨fun _ => 0, fun _ => 0,
    fun pd => if pd.format = 0 then List.range pd.count else (List.range pd.count).reverse⟩

/-- The conversion of an index the concrete runs use. -/
def natCast : Nat → Int := fun i => Int.ofNat i

/-! ## Evaluation lemmas -/

theorem dimAt_eq {s : TShape} {i : Nat} {v : Int} (h : s[i]? = some v) :
    dimAt s i = Except.ok v := by
  simp [dimAt, h, pure, Except.pure]

theorem dimWrap_of_fits {x : Int} (h : fitsDim x) : dimWrap x = x := by
  obtain ⟨h1, h2⟩ := h
  unfold dimWrap
  norm_num at h1 h2 ⊢
  omega

theorem dimAdd_of_fits {a b : Int} (h : fitsDim (a + b)) : dimAdd a b = a + b := by
  unfold dimAdd
  split_ifs
  · exact dimWrap_of_fits h
  · rfl

theorem dimSub_of_fits {a b : Int} (h : fitsDim (a - b)) : dimSub a b = a - b := by
  unfold dimSub
  split_ifs
  · exact dimWrap_of_fits h
  · rfl

theorem dimMul_of_fits {a b : Int} (h : fitsDim (a * b)) : dimMul a b = a * b := by
  unfold dimMul
  split_ifs
  · exact dimWrap_of_fits h
  · rfl

theorem paddedInput_of_fits {d p : Int} (h2 : fitsDim (2 * p)) (h : fitsDim (d + 2 * p)) :
    paddedInput d p = d + 2 * p := by
  unfold paddedInput
  rw [dimMul_of_fits h2, dimAdd_of_fits h]

theorem poolDividend_of_fits {d p k : Int} (h2 : fitsDim (2 * p)) (h : fitsDim (d + 2 * p))
    (h3 : fitsDim (d + 2 * p - k)) : poolDividend d p k = d + 2 * p - k := by
  unfold poolDividend
  rw [paddedInput_of_fits h2 h, dimSub_of_fits h3]

theorem divUndefined_of_pos (a : Int) {s : Int} (hs : 0 < s) : divUndefined a s = false := by
  unfold divUndefined
  have h1 : ¬ s = 0 := by omega
  have h2 : ¬ s = -1 := by omega
  simp [h1, h2]

theorem paddedInput_zero (x : Int) : paddedInput x 0 = x := by
  have h0 : dimMul 2 0 = 0 := by decide
  unfold paddedInput
  rw [h0]
  unfold dimAdd
  split_ifs with h
  · rw [Int.add_zero]
    exact dimWrap_of_fits h.1
  · exact Int.add_zero x

theorem poolDividend_self (x : Int) : poolDividend x 0 x = 0 := by
  unfold poolDividend
  rw [paddedInput_zero]
  unfold dimSub
  split_ifs
  · rw [Int.sub_self]
    decide
  · exact Int.sub_self x

theorem divUndefined_zero {s : Int} (hs : s ≠ 0) : divUndefined 0 s = false := by
  unfold divUndefined
  simp [hs]

theorem dimAdd_one_zero : dimAdd 1 0 = 1 := by decide

theorem kernelFits_eq {param : PoolingParam} {dshape : TShape} {i : Nat} {k d p : Int}
    (hk : param.kernel[i]? = some k) (hd : dshape[i + 2]? = some d)
    (hp : param.pad[i]? = some p) :
    kernelFits param dshape i = Except.ok (decide (k ≤ paddedInput d p)) := by
  simp [kernelFits, dimAt_eq hk, dimAt_eq hd, dimAt_eq hp, bind, Except.bind, pure,
    Except.pure]

theorem validDim_eq {param : PoolingParam} {dshape : TShape} {i : Nat} {k d p s : Int}
    (hk : param.kernel[i]? = some k) (hd : dshape[i + 2]? = some d)
    (hp : param.pad[i]? = some p) (hs : param.stride[i]? = some s) :
    validDim param dshape i =
      if divUndefined (poolDividend d p k) s = true then Except.error Failure.undefined
      else Except.ok (dimAdd 1 (Int.tdiv (poolDividend d p k) s)) := by
  by_cases h : divUndefined (poolDividend d p k) s = true <;>
    simp [validDim, dimDiv, dimAt_eq hk, dimAt_eq hd, dimAt_eq hp, dimAt_eq hs, bind,
      Except.bind, pure, Except.pure, throw, throwThe, MonadExceptOf.throw, h]

theorem fullDim_eq {param : PoolingParam} {dshape : TShape} {i : Nat} {k d p s : Int}
    (hk : param.kernel[i]? = some k) (hd : dshape[i + 2]? = some d)
    (hp : param.pad[i]? = some p) (hs : param.stride[i]? = some s) :
    fullDim param dshape i = Except.ok (1 + ceilDivF32 (poolDividend d p k) s) := by
  simp [fullDim, dimAt_eq hk, dimAt_eq hd, dimAt_eq hp, dimAt_eq hs, bind, Except.bind,
    pure, Except.pure]

theorem PoolingShape_1d (cfg : Build) (param : PoolingParam) (a b x k0 s0 p0 : Int)
    (out : List TShape) (hg : param.global_pool = false) (hk : param.kernel = [k0])
    (hs0 : param.stride[0]? = some s0) (hp0 : param.pad[0]? = some p0) :
    PoolingShape cfg param [[a, b, x]] out =
      if k0 ≤ paddedInput x p0 then
        if param.pooling_convention = PoolingConvention.kValid then
          if divUndefined (poolDividend x p0 k0) s0 = true then Except.error Failure.undefined
          else Except.ok (true, saveOutputShape cfg param
            [a, b, dimAdd 1 (Int.tdiv (poolDividend x p0 k0) s0)] out)
        else Except.ok (true, saveOutputShape cfg param
          [a, b, 1 + ceilDivF32 (poolDividend x p0 k0) s0] out)
      else Except.error Failure.check := by
  have hk0 : param.kernel[0]? = some k0 := by simp [hk]
  have f0 := @kernelFits_eq param [a, b, x] 0 k0 x p0 hk0 rfl hp0
  have v0 := @validDim_eq param [a, b, x] 0 k0 x p0 s0 hk0 rfl hp0 hs0
  have c0 := @fullDim_eq param [a, b, x] 0 k0 x p0 s0 hk0 rfl hp0 hs0
  by_cases h0 : k0 ≤ paddedInput x p0 <;>
    by_cases hc : param.pooling_convention = PoolingConvention.kValid <;>
    by_cases z0 : divUndefined (poolDividend x p0 k0) s0 = true <;>
    simp [PoolingShape, hk, hg, ndim, vecAt, f0, v0, c0, CHECK, dimSet, bind, Except.bind,
      pure, Except.pure, throw, throwThe, MonadExceptOf.throw, h0, hc, z0]

theorem PoolingShape_2d (cfg : Build) (param : PoolingParam)
    (a b x y k0 k1 s0 s1 p0 p1 : Int)
    (out : List TShape) (hg : param.global_pool = false) (hk : param.kernel = [k0, k1])
    (hs0 : param.stride[0]? = some s0) (hp0 : param.pad[0]? = some p0)
    (hs1 : param.stride[1]? = some s1) (hp1 : param.pad[1]? = some p1) :
    PoolingShape cfg param [[a, b, x, y]] out =
      if k0 ≤ paddedInput x p0 ∧ k1 ≤ paddedInput y p1 then
        if param.pooling_convention = PoolingConvention.kValid then
          if divUndefined (poolDividend x p0 k0) s0 = true ∨
              divUndefined (poolDividend y p1 k1) s1 = true then Except.error Failure.undefined
          else Except.ok (true, saveOutputShape cfg param
            [a, b, dimAdd 1 (Int.tdiv (poolDividend x p0 k0) s0),
              dimAdd 1 (Int.tdiv (poolDividend y p1 k1) s1)] out)
        else Except.ok (true, saveOutputShape cfg param
          [a, b, 1 + ceilDivF32 (poolDividend x p0 k0) s0,
            1 + ceilDivF32 (poolDividend y p1 k1) s1] out)
      else Except.error Failure.check := by
  have hk0 : param.kernel[0]? = some k0 := by simp [hk]
  have hk1 : param.kernel[1]? = some k1 := by simp [hk]
  have f0 := @kernelFits_eq param [a, b, x, y] 0 k0 x p0 hk0 rfl hp0
  have f1 := @kernelFits_eq param [a, b, x, y] 1 k1 y p1 hk1 rfl hp1
  have v0 := @validDim_eq param [a, b, x, y] 0 k0 x p0 s0 hk0 rfl hp0 hs0
  have v1 := @validDim_eq param [a, b, x, y] 1 k1 y p1 s1 hk1 rfl hp1 hs1
  have c0 := @fullDim_eq param [a, b, x, y] 0 k0 x p0 s0 hk0 rfl hp0 hs0
  have c1 := @fullDim_eq param [a, b, x, y] 1 k1 y p1 s1 hk1 rfl hp1 hs1
  by_cases h0 : k0 ≤ paddedInput x p0 <;> by_cases h1 : k1 ≤ paddedInput y p1 <;>
    by_cases hc : param.pooling_convention = PoolingConvention.kValid <;>
    by_cases z0 : divUndefined (poolDividend x p0 k0) s0 = true <;> by_cases z1 : divUndefined (poolDividend y p1 k1) s1 = true <;>
    simp [PoolingShape, hk, hg, ndim, vecAt, f0, f1, v0, v1, c0, c1, CHECK, dimSet, bind,
      Except.bind, pure, Except.pure, throw, throwThe, MonadExceptOf.throw, h0, h1, hc, z0,
      z1]

theorem PoolingShape_3d (cfg : Build) (param : PoolingParam)
    (a b x y z k0 k1 k2 s0 s1 s2 p0 p1 p2 : Int)
    (out : List TShape) (hg : param.global_pool = false) (hk : param.kernel = [k0, k1, k2])
    (hs0 : param.stride[0]? = some s0) (hp0 : param.pad[0]? = some p0)
    (hs1 : param.stride[1]? = some s1) (hp1 : param.pad[1]? = some p1)
    (hs2 : param.stride[2]? = some s2) (hp2 : param.pad[2]? = some p2) :
    PoolingShape cfg param [[a, b, x, y, z]] out =
      if k0 ≤ paddedInput x p0 ∧ k1 ≤ paddedInput y p1 ∧ k2 ≤ paddedInput z p2 then
        if param.pooling_convention = PoolingConvention.kValid then
          if divUndefined (poolDividend x p0 k0) s0 = true ∨ divUndefined (poolDividend y p1 k1) s1 = true ∨
              divUndefined (poolDividend z p2 k2) s2 = true then Except.error Failure.undefined
          else Except.ok (true, saveOutputShape cfg param
            [a, b, dimAdd 1 (Int.tdiv (poolDividend x p0 k0) s0),
              dimAdd 1 (Int.tdiv (poolDividend y p1 k1) s1),
              dimAdd 1 (Int.tdiv (poolDividend z p2 k2) s2)] out)
        else Except.ok (true, saveOutputShape cfg param
          [a, b, 1 + ceilDivF32 (poolDividend x p0 k0) s0,
            1 + ceilDivF32 (poolDividend y p1 k1) s1,
            1 + ceilDivF32 (poolDividend z p2 k2) s2] out)
      else Except.error Failure.check := by
  have hk0 : param.kernel[0]? = some k0 := by simp [hk]
  have hk1 : param.kernel[1]? = some k1 := by simp [hk]
  have hk2 : param.kernel[2]? = some k2 := by simp [hk]
  have f0 := @kernelFits_eq param [a, b, x, y, z] 0 k0 x p0 hk0 rfl hp0
  have f1 := @kernelFits_eq param [a, b, x, y, z] 1 k1 y p1 hk1 rfl hp1
  have f2 := @kernelFits_eq param [a, b, x, y, z] 2 k2 z p2 hk2 rfl hp2
  have v0 := @validDim_eq param [a, b, x, y, z] 0 k0 x p0 s0 hk0 rfl hp0 hs0
  have v1 := @validDim_eq param [a, b, x, y, z] 1 k1 y p1 s1 hk1 rfl hp1 hs1
  have v2 := @validDim_eq param [a, b, x, y, z] 2 k2 z p2 s2 hk2 rfl hp2 hs2
  have c0 := @fullDim_eq param [a, b, x, y, z] 0 k0 x p0 s0 hk0 rfl hp0 hs0
  have c1 := @fullDim_eq param [a, b, x, y, z] 1 k1 y p1 s1 hk1 rfl hp1 hs1
  have c2 := @fullDim_eq param [a, b, x, y, z] 2 k2 z p2 s2 hk2 rfl hp2 hs2
  by_cases h0 : k0 ≤ paddedInput x p0 <;> by_cases h1 : k1 ≤ paddedInput y p1 <;>
    by_cases h2 : k2 ≤ paddedInput z p2 <;>
    by_cases hc : param.pooling_convention = PoolingConvention.kValid <;>
    by_cases z0 : divUndefined (poolDividend x p0 k0) s0 = true <;> by_cases z1 : divUndefined (poolDividend y p1 k1) s1 = true <;> by_cases z2 : divUndefined (poolDividend z p2 k2) s2 = true <;>
    simp [PoolingShape, hk, hg, ndim, vecAt, f0, f1, f2, v0, v1, v2, c0, c1, c2, CHECK,
      dimSet, bind, Except.bind, pure, Except.pure, throw, throwThe, MonadExceptOf.throw, h0,
      h1, h2, hc, z0, z1, z2]

theorem PoolingShape_global (cfg : Build) (param : PoolingParam) (dshape : TShape)
    (out : List TShape) (hg : param.global_pool = true) :
    PoolingShape cfg param [dshape] out =
      if 3 ≤ ndim dshape ∧ ndim dshape ≤ 5 then
        Except.ok (true, saveOutputShape cfg param
          (dshape.take 2 ++ List.replicate (ndim dshape - 2) 1) out)
      else Except.error Failure.check := by
  match dshape with
  | [] | [_] | [_, _] | [_, _, _] | [_, _, _, _] | [_, _, _, _, _] =>
    simp [PoolingShape, hg, ndim, vecAt, setOnesFrom, CHECK, dimSet, bind, Except.bind, pure,
      Except.pure, throw, throwThe, MonadExceptOf.throw, List.replicate]
  | _ :: _ :: _ :: _ :: _ :: _ :: _ =>
    simp [PoolingShape, hg, ndim, vecAt, CHECK, bind, Except.bind, pure, Except.pure, throw,
      throwThe, MonadExceptOf.throw]

theorem saveOutputShape_eq (cfg : Build) (param : PoolingParam) (oshape : TShape)
    (out : List TShape) :
    saveOutputShape cfg param oshape out =
      oshape :: (if GetNumOutputs cfg param = 2 then [oshape] else []) := by
  unfold saveOutputShape GetNumOutputs
  cases cfg.MXNET_USE_MKLDNN <;> cases cfg.MKLDNNRequireWorkspace param <;>
    cases cfg.SupportMKLDNNPooling param <;> simp

theorem tdiv_eq_floor {n s : Int} (hn : 0 ≤ n) (hs : 0 < s) :
    Int.tdiv n s = ⌊(n : ℚ) / (s : ℚ)⌋ := by
  rw [Int.tdiv_eq_ediv hn (le_of_lt hs)]
  obtain ⟨d, rfl⟩ := Int.eq_ofNat_of_zero_le (le_of_lt hs)
  exact (Rat.floor_intCast_div_natCast n d).symm


theorem fitsDim_of_small {v : Int} (h0 : 0 ≤ v) (h : v < 2 ^ 24) : fitsDim v := by
  norm_num at h
  constructor
  · norm_num
    omega
  · norm_num
    omega

theorem validFormula_eq_tdiv {x k p s : Int} (hn : 0 ≤ x + 2 * p - k) (hs : 0 < s) :
    validFormula x k p s = 1 + Int.tdiv (x + 2 * p - k) s := by
  unfold validFormula
  rw [tdiv_eq_floor hn hs]
  ring

theorem validDim_axis {x p k s : Int} (hs : 0 < s) (hk : k ≤ x + 2 * p)
    (h2 : fitsDim (2 * p)) (h : fitsDim (x + 2 * p)) (h3 : fitsDim (x + 2 * p - k))
    (h4 : fitsDim (validFormula x k p s)) :
    k ≤ paddedInput x p ∧ divUndefined (poolDividend x p k) s = false ∧
      dimAdd 1 (Int.tdiv (poolDividend x p k) s) = validFormula x k p s := by
  have e := validFormula_eq_tdiv (show 0 ≤ x + 2 * p - k by linarith) hs
  refine ⟨by rw [paddedInput_of_fits h2 h]; exact hk, divUndefined_of_pos _ hs, ?_⟩
  rw [poolDividend_of_fits h2 h h3, dimAdd_of_fits (by rw [← e]; exact h4), e]

theorem getElem?_of_getD_pos {l : List Int} {i : Nat} (h : 0 < l.getD i 0) :
    l[i]? = some (l.getD i 0) := by
  rw [List.getD_eq_getElem?_getD] at h ⊢
  cases hl : l[i]? with
  | none => simp [hl] at h
  | some v => simp

theorem getElem?_of_lt_ndim {l : List Int} {i : Nat} (h : i < ndim l) :
    l[i]? = some (l.getD i 0) := by
  unfold ndim at h
  rw [List.getD_eq_getElem?_getD, List.getElem?_eq_getElem h]
  simp

theorem bind_eq_ok {α β : Type} (x : Except Failure α) (f : α → Except Failure β) (v : β) :
    (x >>= f) = Except.ok v ↔ ∃ a, x = Except.ok a ∧ f a = Except.ok v := by
  cases x <;> simp [bind, Except.bind]

theorem CHECK_eq_ok (c : Bool) (u : Unit) : CHECK c = Except.ok u ↔ c = true := by
  cases c <;> simp [CHECK, pure, Except.pure, throw, throwThe, MonadExceptOf.throw]

theorem dimSet_eq_ok (s : TShape) (i : Nat) (v : Int) (t : TShape) :
    dimSet s i v = Except.ok t ↔ i < s.length ∧ t = s.set i v := by
  unfold dimSet
  by_cases h : i < s.length <;>
    simp [h, pure, Except.pure, throw, throwThe, MonadExceptOf.throw, eq_comm]

theorem vecAt_eq_ok {α : Type} (l : List α) (i : Nat) (x : α) :
    vecAt l i = Except.ok x ↔ l[i]? = some x := by
  unfold vecAt
  cases h : l[i]? <;> simp [pure, Except.pure, throw, throwThe, MonadExceptOf.throw]

theorem pure_eq_ok {α : Type} (a b : α) :
    (pure a : Except Failure α) = Except.ok b ↔ a = b := by
  simp [pure, Except.pure]

theorem SameFrame.refl (s : TShape) : SameFrame s s := ⟨rfl, rfl, rfl⟩

theorem SameFrame.set {o d : TShape} (h : SameFrame o d) (i : Nat) (v : Int) :
    SameFrame (o.set (i + 2) v) d := by
  obtain ⟨h1, h2, h3⟩ := h
  refine ⟨by simpa [ndim] using h1, ?_, ?_⟩
  · rw [List.getElem?_set_ne (by omega)]; exact h2
  · rw [List.getElem?_set_ne (by omega)]; exact h3

theorem setOnesFrom_frame (n : Nat) : ∀ (i : Nat) (o o2 d : TShape), SameFrame o d →
    setOnesFrom (i + 2) n o = Except.ok o2 → SameFrame o2 d := by
  induction n with
  | zero =>
    intro i o o2 d h hs
    simp only [setOnesFrom, pure_eq_ok] at hs
    exact hs ▸ h
  | succ n ih =>
    intro i o o2 d h hs
    simp only [setOnesFrom, bind_eq_ok, dimSet_eq_ok] at hs
    obtain ⟨o1, ⟨_, rfl⟩, hs⟩ := hs
    exact ih (i + 1) _ o2 d (h.set i 1) hs

theorem PoolingShape_ok_inv (cfg : Build) (param : PoolingParam)
    (in_shape out out2 : List TShape) (b : Bool)
    (hacc : param.global_pool = true ∨ ndim param.kernel = 1 ∨ ndim param.kernel = 2 ∨
      ndim param.kernel = 3)
    (h : PoolingShape cfg param in_shape out = Except.ok (b, out2)) :
    ∃ dshape oshape, in_shape = [dshape] ∧ b = true ∧
      out2 = saveOutputShape cfg param oshape out ∧ SameFrame oshape dshape := by
  simp only [PoolingShape, bind_eq_ok, CHECK_eq_ok, vecAt_eq_ok, decide_eq_true_eq] at h
  obtain ⟨_, hlen, dshape, hd, _, h3, _, h5, h⟩ := h
  obtain ⟨d0, rfl⟩ := List.length_eq_one.mp hlen
  simp only [List.getElem?_cons_zero, Option.some.injEq] at hd
  subst hd
  have hne : ¬ ndim d0 = 0 := by omega
  rw [if_neg hne] at h
  by_cases hg : param.global_pool = true
  · rw [if_pos hg] at h
    simp only [bind_eq_ok, pure_eq_ok, Prod.mk.injEq] at h
    obtain ⟨o, ho, rfl, rfl⟩ := h
    exact ⟨d0, o, rfl, rfl, rfl, setOnesFrom_frame _ 0 d0 o d0 (SameFrame.refl _) ho⟩
  · rw [if_neg hg] at h
    by_cases k1 : ndim param.kernel = 1
    · rw [if_pos k1] at h
      by_cases hc : param.pooling_convention = PoolingConvention.kValid
      · rw [if_pos hc] at h
        simp only [bind_eq_ok, CHECK_eq_ok, dimSet_eq_ok, pure_eq_ok, Prod.mk.injEq,
          exists_and_left, exists_const] at h
        obtain ⟨_, _, _, _, v0, _, o, ⟨_, rfl⟩, rfl, rfl⟩ := h
        exact ⟨d0, _, rfl, rfl, rfl, (SameFrame.refl d0).set 0 v0⟩
      · rw [if_neg hc] at h
        simp only [bind_eq_ok, CHECK_eq_ok, dimSet_eq_ok, pure_eq_ok, Prod.mk.injEq,
          exists_and_left, exists_const] at h
        obtain ⟨_, _, _, _, v0, _, o, ⟨_, rfl⟩, rfl, rfl⟩ := h
        exact ⟨d0, _, rfl, rfl, rfl, (SameFrame.refl d0).set 0 v0⟩
    · rw [if_neg k1] at h
      by_cases k2 : ndim param.kernel = 2
      · rw [if_pos k2] at h
        by_cases hc : param.pooling_convention = PoolingConvention.kValid
        · rw [if_pos hc] at h
          simp only [bind_eq_ok, CHECK_eq_ok, dimSet_eq_ok, pure_eq_ok, Prod.mk.injEq,
            exists_and_left, exists_const] at h
          obtain ⟨_, _, _, _, _, _, _, v0, _, o0, ⟨_, rfl⟩, v1, _, o1, ⟨_, rfl⟩, rfl, rfl⟩ := h
          exact ⟨d0, _, rfl, rfl, rfl, ((SameFrame.refl d0).set 0 v0).set 1 v1⟩
        · rw [if_neg hc] at h
          simp only [bind_eq_ok, CHECK_eq_ok, dimSet_eq_ok, pure_eq_ok, Prod.mk.injEq,
            exists_and_left, exists_const] at h
          obtain ⟨_, _, _, _, _, _, _, v0, _, o0, ⟨_, rfl⟩, v1, _, o1, ⟨_, rfl⟩, rfl, rfl⟩ := h
          exact ⟨d0, _, rfl, rfl, rfl, ((SameFrame.refl d0).set 0 v0).set 1 v1⟩
      · rw [if_neg k2] at h
        have k3 : ndim param.kernel = 3 := by
          rcases hacc with h | h | h | h <;> simp_all
        rw [if_pos k3] at h
        by_cases hc : param.pooling_convention = PoolingConvention.kValid
        · rw [if_pos hc] at h
          simp only [bind_eq_ok, CHECK_eq_ok, dimSet_eq_ok, pure_eq_ok, Prod.mk.injEq,
            exists_and_left, exists_const] at h
          obtain ⟨_, _, _, _, _, _, _, _, _, _, v0, _, o0, ⟨_, rfl⟩, v1, _, o1, ⟨_, rfl⟩, v2, _,
            o2, ⟨_, rfl⟩, rfl, rfl⟩ := h
          exact ⟨d0, _, rfl, rfl, rfl, (((SameFrame.refl d0).set 0 v0).set 1 v1).set 2 v2⟩
        · rw [if_neg hc] at h
          simp only [bind_eq_ok, CHECK_eq_ok, dimSet_eq_ok, pure_eq_ok, Prod.mk.injEq,
            exists_and_left, exists_const] at h
          obtain ⟨_, _, _, _, _, _, _, _, _, _, v0, _, o0, ⟨_, rfl⟩, v1, _, o1, ⟨_, rfl⟩, v2, _,
            o2, ⟨_, rfl⟩, rfl, rfl⟩ := h
          exact ⟨d0, _, rfl, rfl, rfl, (((SameFrame.refl d0).set 0 v0).set 1 v1).set 2 v2⟩

theorem PoolingParamParser_accepts {init param : PoolingParam}
    (h : PoolingParamParser init = Except.ok param) :
    param.global_pool = true ∨ ndim param.kernel = 1 ∨ ndim param.kernel = 2 ∨
      ndim param.kernel = 3 := by
  rcases init with ⟨kernel, stride, pad, pool_type, conv, global_pool⟩
  by_cases h1 : ndim kernel = 1
  · by_cases hs : ndim stride = 0 <;> by_cases hp : ndim pad = 0 <;>
      simp [PoolingParamParser, h1, hs, hp, pure, Except.pure] at h <;>
      subst h <;> simp [h1]
  · by_cases h2 : ndim kernel = 2
    · by_cases hs : ndim stride = 0 <;> by_cases hp : ndim pad = 0 <;>
        simp [PoolingParamParser, h2, hs, hp, pure, Except.pure] at h <;>
        subst h <;> simp [h2]
    · by_cases h3 : ndim kernel = 3 <;> by_cases hg : global_pool = true <;>
        by_cases hs : ndim stride = 0 <;> by_cases hp : ndim pad = 0 <;>
        simp [PoolingParamParser, h1, h2, h3, hg, hs, hp, CHECK, bind, Except.bind, pure,
          Except.pure, throw, throwThe, MonadExceptOf.throw] at h <;>
        subst h <;> simp [h3, hg]

theorem PoolingShape_input_count (cfg : Build) (param : PoolingParam)
    (in_shape out : List TShape) (h : in_shape.length ≠ 1) :
    PoolingShape cfg param in_shape out = Except.error Failure.check := by
  simp [PoolingShape, CHECK, h, bind, Except.bind, throw, throwThe, MonadExceptOf.throw]

theorem PoolingShape_rank_mismatch (cfg : Build) (param : PoolingParam) (dshape : TShape)
    (out : List TShape) (hg : param.global_pool = false)
    (hk : ndim param.kernel = 1 ∨ ndim param.kernel = 2 ∨ ndim param.kernel = 3)
    (hd : ndim dshape ≠ ndim param.kernel + 2) :
    PoolingShape cfg param [dshape] out = Except.error Failure.check := by
  rcases hk with hk | hk | hk <;> rw [hk] at hd <;> norm_num at hd <;>
    by_cases h3 : 3 ≤ ndim dshape <;> by_cases h5 : ndim dshape ≤ 5 <;>
    simp [PoolingShape, vecAt, CHECK, hg, hk, hd, h3, h5, bind, Except.bind, pure,
      Except.pure, throw, throwThe, MonadExceptOf.throw] <;>
    omega

theorem exists_lt_one {P : Nat → Prop} : (∃ i, i < 1 ∧ P i) ↔ P 0 := by
  constructor
  · rintro ⟨i, hi, h⟩
    have : i = 0 := by omega
    exact this ▸ h
  · intro h
    exact ⟨0, by omega, h⟩

theorem exists_lt_two {P : Nat → Prop} : (∃ i, i < 2 ∧ P i) ↔ (P 0 ∨ P 1) := by
  constructor
  · rintro ⟨i, hi, h⟩
    have : i = 0 ∨ i = 1 := by omega
    rcases this with rfl | rfl
    · exact Or.inl h
    · exact Or.inr h
  · rintro (h | h)
    · exact ⟨0, by omega, h⟩
    · exact ⟨1, by omega, h⟩

theorem exists_lt_three {P : Nat → Prop} : (∃ i, i < 3 ∧ P i) ↔ (P 0 ∨ P 1 ∨ P 2) := by
  constructor
  · rintro ⟨i, hi, h⟩
    have : i = 0 ∨ i = 1 ∨ i = 2 := by omega
    rcases this with rfl | rfl | rfl
    · exact Or.inl h
    · exact Or.inr (Or.inl h)
    · exact Or.inr (Or.inr h)
  · rintro (h | h | h)
    · exact ⟨0, by omega, h⟩
    · exact ⟨1, by omega, h⟩
    · exact ⟨2, by omega, h⟩

/-! ## Facts about the binary32 model -/

theorem log2Fuel_le (fuel : Nat) : ∀ n : Nat, 0 < n → 2 ^ log2Fuel fuel n ≤ n := by
  induction fuel with
  | zero => intro n hn; simpa [log2Fuel] using hn
  | succ fuel ih =>
    intro n hn
    unfold log2Fuel
    by_cases h : n < 2
    · simp [h]; omega
    · rw [if_neg h, pow_succ]
      have := ih (n / 2) (by omega)
      omega

theorem roundNearestEven_ge (num den : Nat) : num / den ≤ roundNearestEven num den := by
  unfold roundNearestEven
  dsimp only
  split_ifs <;> omega

theorem ratLog2_one (a : Nat) (ha : 0 < a) : ratLog2 a 1 = (ilog2 a : Int) := by
  have h1 : ilog2 1 = 0 := rfl
  have hle : 2 ^ ilog2 a ≤ a := log2Fuel_le a a ha
  unfold ratLog2
  simp [h1, hle]

theorem ulpExponent_one (a : Nat) (ha : 0 < a) : ulpExponent a 1 = (ilog2 a : Int) - 23 := by
  unfold ulpExponent
  rw [ratLog2_one a ha]
  omega

theorem significand_one_pos (a : Nat) (ha : 0 < a) : 0 < significand a 1 := by
  have hle : 2 ^ ilog2 a ≤ a := log2Fuel_le a a ha
  unfold significand
  rw [ulpExponent_one a ha]
  split_ifs with h
  · refine lt_of_lt_of_le ?_ (roundNearestEven_ge _ _)
    have hp : (2 : Nat) ^ ((ilog2 a : Int) - 23).toNat ≤ 2 ^ ilog2 a :=
      Nat.pow_le_pow_right (by norm_num) (by omega)
    rw [one_mul]
    exact Nat.div_pos (le_trans hp hle) (by positivity)
  · refine lt_of_lt_of_le ?_ (roundNearestEven_ge _ _)
    rw [Nat.div_one]
    positivity

theorem f32Round_one (negative : Bool) (a : Nat) (ha : 0 < a) :
    f32Round negative a 1 = F32.infinity negative ∨
      ∃ m u, f32Round negative a 1 = F32.finite m u ∧ m ≠ 0 := by
  have hm := significand_one_pos a ha
  unfold f32Round
  split_ifs with h1 h2
  · exact Or.inl rfl
  · exact Or.inr ⟨_, _, rfl, by omega⟩
  · exact Or.inr ⟨_, _, rfl, by omega⟩

theorem ceilDivF32_zero (s : Int) (hs : s ≠ 0) : ceilDivF32 0 s = 0 := by
  unfold ceilDivF32 f32OfInt
  rw [if_pos rfl, if_neg hs]
  rcases f32Round_one (decide (s < 0)) s.natAbs (Int.natAbs_pos.mpr hs) with h | ⟨m, u, h, hm⟩
  · rw [h]
    simp [f32Div, f32Ceil, f32ToInt]
  · rw [h]
    simp [f32Div, f32Ceil, f32ToInt, hm]

theorem log2Fuel_lt (fuel : Nat) : ∀ n : Nat, n < 2 ^ fuel → n < 2 ^ (log2Fuel fuel n + 1) := by
  induction fuel with
  | zero => intro n hn; simp at hn; simp [hn]
  | succ fuel ih =>
    intro n hn
    unfold log2Fuel
    by_cases h : n < 2
    · simp [h]
    · rw [if_neg h]
      rw [pow_succ] at hn
      have := ih (n / 2) (by omega)
      rw [pow_succ] at this ⊢
      omega

theorem ilog2_spec (n : Nat) (hn : 0 < n) : 2 ^ ilog2 n ≤ n ∧ n < 2 ^ (ilog2 n + 1) :=
  ⟨log2Fuel_le n n hn, log2Fuel_lt n n (Nat.lt_two_pow n)⟩

theorem ratLog2_spec (a b : Nat) (ha : 0 < a) (hb : 0 < b) :
    (2 : ℚ) ^ ratLog2 a b ≤ (a : ℚ) / b ∧ (a : ℚ) / b < (2 : ℚ) ^ (ratLog2 a b + 1) := by
  obtain ⟨ha1, ha2⟩ := ilog2_spec a ha
  obtain ⟨hb1, hb2⟩ := ilog2_spec b hb
  have hbq : (0 : ℚ) < b := by exact_mod_cast hb
  have qa1 : (2 : ℚ) ^ (ilog2 a : Int) ≤ a := by
    rw [zpow_natCast]; exact_mod_cast ha1
  have qa2 : (a : ℚ) < (2 : ℚ) ^ ((ilog2 a : Int) + 1) := by
    have : (a : ℚ) < (2 : ℚ) ^ (ilog2 a + 1) := by exact_mod_cast ha2
    rwa [← zpow_natCast, Nat.cast_add, Nat.cast_one] at this
  have qb1 : (2 : ℚ) ^ (ilog2 b : Int) ≤ b := by
    rw [zpow_natCast]; exact_mod_cast hb1
  have qb2 : (b : ℚ) < (2 : ℚ) ^ ((ilog2 b : Int) + 1) := by
    have : (b : ℚ) < (2 : ℚ) ^ (ilog2 b + 1) := by exact_mod_cast hb2
    rwa [← zpow_natCast, Nat.cast_add, Nat.cast_one] at this
  have h2 : (2 : ℚ) ≠ 0 := by norm_num
  -- the quotient lies strictly between 2^(d-1) and 2^(d+1)
  have low : (2 : ℚ) ^ ((ilog2 a : Int) - (ilog2 b : Int) - 1) < (a : ℚ) / b := by
    rw [lt_div_iff₀ hbq]
    have e : (2 : ℚ) ^ ((ilog2 a : Int) - (ilog2 b : Int) - 1) * (2 : ℚ) ^ ((ilog2 b : Int) + 1)
        = (2 : ℚ) ^ (ilog2 a : Int) := by
      rw [← zpow_add₀ h2]; congr 1; ring
    have hp : (0 : ℚ) < (2 : ℚ) ^ ((ilog2 a : Int) - (ilog2 b : Int) - 1) := by positivity
    calc (2 : ℚ) ^ ((ilog2 a : Int) - (ilog2 b : Int) - 1) * b
        < (2 : ℚ) ^ ((ilog2 a : Int) - (ilog2 b : Int) - 1) * (2 : ℚ) ^ ((ilog2 b : Int) + 1) :=
          mul_lt_mul_of_pos_left qb2 hp
      _ = (2 : ℚ) ^ (ilog2 a : Int) := e
      _ ≤ a := qa1
  have high : (a : ℚ) / b < (2 : ℚ) ^ ((ilog2 a : Int) - (ilog2 b : Int) + 1) := by
    rw [div_lt_iff₀ hbq]
    have e : (2 : ℚ) ^ ((ilog2 a : Int) - (ilog2 b : Int) + 1) * (2 : ℚ) ^ (ilog2 b : Int)
        = (2 : ℚ) ^ ((ilog2 a : Int) + 1) := by
      rw [← zpow_add₀ h2]; congr 1; ring
    have hp : (0 : ℚ) < (2 : ℚ) ^ ((ilog2 a : Int) - (ilog2 b : Int) + 1) := by positivity
    calc (a : ℚ) < (2 : ℚ) ^ ((ilog2 a : Int) + 1) := qa2
      _ = (2 : ℚ) ^ ((ilog2 a : Int) - (ilog2 b : Int) + 1) * (2 : ℚ) ^ (ilog2 b : Int) := e.symm
      _ ≤ (2 : ℚ) ^ ((ilog2 a : Int) - (ilog2 b : Int) + 1) * b :=
          mul_le_mul_of_nonneg_left qb1 (le_of_lt hp)
  unfold ratLog2
  dsimp only
  by_cases hd : 0 ≤ (ilog2 a : Int) - (ilog2 b : Int)
  · rw [if_pos hd]
    have hc : (b * 2 ^ ((ilog2 a : Int) - (ilog2 b : Int)).toNat ≤ a) ↔
        (2 : ℚ) ^ ((ilog2 a : Int) - (ilog2 b : Int)) ≤ (a : ℚ) / b := by
      have hn : (b * 2 ^ ((ilog2 a : Int) - (ilog2 b : Int)).toNat ≤ a) ↔
          ((b : ℚ) * (2 : ℚ) ^ ((ilog2 a : Int) - (ilog2 b : Int)).toNat ≤ (a : ℚ)) := by
        norm_cast
      rw [hn, le_div_iff₀ hbq, ← zpow_natCast, Int.toNat_of_nonneg hd, mul_comm]
    by_cases hchk : b * 2 ^ ((ilog2 a : Int) - (ilog2 b : Int)).toNat ≤ a
    · rw [if_pos hchk]
      exact ⟨hc.mp hchk, high⟩
    · rw [if_neg hchk]
      refine ⟨le_of_lt low, ?_⟩
      rw [sub_add_cancel]
      exact lt_of_not_le (fun h => hchk (hc.mpr h))
  · rw [if_neg hd]
    have hc : (b ≤ a * 2 ^ (-((ilog2 a : Int) - (ilog2 b : Int))).toNat) ↔
        (2 : ℚ) ^ ((ilog2 a : Int) - (ilog2 b : Int)) ≤ (a : ℚ) / b := by
      have hn : (b ≤ a * 2 ^ (-((ilog2 a : Int) - (ilog2 b : Int))).toNat) ↔
          ((b : ℚ) ≤ (a : ℚ) * (2 : ℚ) ^ (-((ilog2 a : Int) - (ilog2 b : Int))).toNat) := by
        norm_cast
      have hp : (0 : ℚ) < (2 : ℚ) ^ ((ilog2 a : Int) - (ilog2 b : Int)) := by positivity
      rw [hn, le_div_iff₀ hbq, ← zpow_natCast, Int.toNat_of_nonneg (by omega), zpow_neg,
        ← div_eq_mul_inv, le_div_iff₀ hp, mul_comm]
    by_cases hchk : b ≤ a * 2 ^ (-((ilog2 a : Int) - (ilog2 b : Int))).toNat
    · rw [if_pos hchk]
      exact ⟨hc.mp hchk, high⟩
    · rw [if_neg hchk]
      refine ⟨le_of_lt low, ?_⟩
      rw [sub_add_cancel]
      exact lt_of_not_le (fun h => hchk (hc.mpr h))

theorem roundNearestEven_le {num den K : Nat} (hd : 0 < den) (h : num ≤ K * den) :
    roundNearestEven num den ≤ K := by
  have hdm := Nat.div_add_mod num den
  have hr := Nat.mod_lt num hd
  have hf : num / den ≤ K := Nat.div_le_of_le_mul (by rwa [mul_comm] at h)
  have hlt : 0 < num % den → num / den < K := by
    intro hpos
    rcases Nat.lt_or_eq_of_le hf with h1 | h1
    · exact h1
    · rw [← h1] at h
      nlinarith
  unfold roundNearestEven
  dsimp only
  split_ifs with h1 h2 h3
  · exact hf
  · exact hlt (by omega)
  · exact hf
  · exact hlt (by omega)

theorem roundNearestEven_gt {num den K : Nat} (hd : 0 < den)
    (h : 2 * K * den + den < 2 * num) : K < roundNearestEven num den := by
  have hdm := Nat.div_add_mod num den
  have hr := Nat.mod_lt num hd
  have hf : K ≤ num / den := by
    rw [Nat.le_div_iff_mul_le hd]
    nlinarith
  have hge := roundNearestEven_ge num den
  rcases Nat.lt_or_eq_of_le hf with h1 | h1
  · omega
  · have h2 : den < 2 * (num % den) := by
      rw [h1] at h
      nlinarith
    unfold roundNearestEven
    dsimp only
    rw [if_neg (by omega), if_pos h2]
    omega

theorem roundNearestEven_one (n : Nat) : roundNearestEven n 1 = n := by
  unfold roundNearestEven
  simp only [Nat.div_one, Nat.mod_one]
  simp

theorem f32OfInt_exact (a : Nat) (ha : 0 < a) (hlt : a < 2 ^ 24) :
    f32OfInt (a : Int) =
      F32.finite ((a * 2 ^ (23 - ilog2 a) : Nat) : Int) ((ilog2 a : Int) - 23) := by
  obtain ⟨h1, h2⟩ := ilog2_spec a ha
  have hl : ilog2 a < 24 := by
    by_contra hc
    have : (2 : Nat) ^ 24 ≤ 2 ^ ilog2 a := Nat.pow_le_pow_right (by norm_num) (by omega)
    omega
  have hne : (a : Int) ≠ 0 := by omega
  have hsig : significand a 1 = a * 2 ^ (23 - ilog2 a) := by
    unfold significand
    rw [ulpExponent_one a ha]
    by_cases hu : 0 ≤ (ilog2 a : Int) - 23
    · have h23 : ilog2 a = 23 := by omega
      rw [if_pos hu]
      simp [h23, roundNearestEven_one]
    · rw [if_neg hu]
      have e : (-((ilog2 a : Int) - 23)).toNat = 23 - ilog2 a := by omega
      rw [e, roundNearestEven_one]
  have hnn : decide ((a : Int) < 0) = false := by
    simp
  unfold f32OfInt
  rw [if_neg hne]
  unfold f32Round
  rw [Int.natAbs_ofNat, ulpExponent_one a ha, hsig, hnn]
  split_ifs with hc
  · exfalso
    obtain ⟨hu, hbig⟩ := hc
    have h23 : ilog2 a = 23 := by omega
    simp [h23] at hbig
    omega
  · contradiction
  · rfl

theorem exists_ceil_nat (n s : Nat) (hn : 0 < n) (hs : 0 < s) :
    ∃ c : Nat, c * s < n ∧ n ≤ (c + 1) * s ∧ ⌈(n : ℚ) / (s : ℚ)⌉ = (c : Int) + 1 := by
  have hdm := Nat.div_add_mod (n - 1) s
  have hr := Nat.mod_lt (n - 1) hs
  have e1 : (n - 1) / s * s = s * ((n - 1) / s) := Nat.mul_comm _ _
  have e2 : ((n - 1) / s + 1) * s = s * ((n - 1) / s) + s := by ring
  have h1 : (n - 1) / s * s < n := by omega
  have h2 : n ≤ ((n - 1) / s + 1) * s := by omega
  obtain ⟨c, hc1, hc2⟩ : ∃ c : Nat, c * s < n ∧ n ≤ (c + 1) * s := ⟨(n - 1) / s, h1, h2⟩
  refine ⟨c, hc1, hc2, ?_⟩
  have hsq : (0 : ℚ) < s := by exact_mod_cast hs
  have q1 : (c : ℚ) * s < n := by exact_mod_cast hc1
  have q2 : (n : ℚ) ≤ ((c : ℚ) + 1) * s := by exact_mod_cast hc2
  rw [Int.ceil_eq_iff]
  constructor
  · rw [lt_div_iff₀ hsq]
    push_cast
    linarith
  · rw [div_le_iff₀ hsq]
    push_cast
    linarith

theorem ratLog2_bounds (n s P : Nat) (hn : 0 < n) (hn24 : n < 2 ^ 24) (hs : 0 < s)
    (hs24 : s < 2 ^ 24) (hP : 0 < P) :
    -24 ≤ ratLog2 (n * P) (s * P) ∧ ratLog2 (n * P) (s * P) ≤ 23 ∧
      (0 ≤ ratLog2 (n * P) (s * P) → s * 2 ^ (ratLog2 (n * P) (s * P)).toNat ≤ n) := by
  obtain ⟨hlo, hhi⟩ := ratLog2_spec (n * P) (s * P) (Nat.mul_pos hn hP) (Nat.mul_pos hs hP)
  have hPq : (P : ℚ) ≠ 0 := by exact_mod_cast (ne_of_gt hP)
  have hq : ((n * P : Nat) : ℚ) / ((s * P : Nat) : ℚ) = (n : ℚ) / s := by
    push_cast
    exact mul_div_mul_right _ _ hPq
  rw [hq] at hlo hhi
  have hsq : (0 : ℚ) < s := by exact_mod_cast hs
  have hs1 : (1 : ℚ) ≤ s := by exact_mod_cast hs
  have hn1 : (1 : ℚ) ≤ n := by exact_mod_cast hn
  have hnq : (n : ℚ) < 2 ^ 24 := by exact_mod_cast hn24
  have hsq24 : (s : ℚ) < 2 ^ 24 := by exact_mod_cast hs24
  have two : (1 : ℚ) < 2 := by norm_num
  refine ⟨?_, ?_, ?_⟩
  · have h1 : (2 : ℚ) ^ (-24 : Int) < (n : ℚ) / s := by
      rw [lt_div_iff₀ hsq, zpow_neg, ← div_eq_inv_mul, div_lt_iff₀ (by positivity)]
      have : (2 : ℚ) ^ (24 : Int) = 2 ^ 24 := by norm_cast
      rw [this]
      linarith
    have h2 := lt_trans h1 hhi
    rw [zpow_lt_zpow_iff_right₀ two] at h2
    omega
  · have h1 : (n : ℚ) / s < (2 : ℚ) ^ (24 : Int) := by
      rw [div_lt_iff₀ hsq]
      have : (2 : ℚ) ^ (24 : Int) = 2 ^ 24 := by norm_cast
      rw [this]
      nlinarith
    have h2 := lt_of_le_of_lt hlo h1
    rw [zpow_lt_zpow_iff_right₀ two] at h2
    omega
  · intro h0
    rw [le_div_iff₀ hsq, ← Int.toNat_of_nonneg h0, zpow_natCast] at hlo
    have : ((s * 2 ^ (ratLog2 (n * P) (s * P)).toNat : Nat) : ℚ) ≤ (n : ℚ) := by
      push_cast
      linarith
    exact_mod_cast this

theorem half_ulp_lt (n s c : Nat) (E : Int) (hs : 0 < s) (hn24 : n < 2 ^ 24)
    (hs24 : s < 2 ^ 24) (hc1 : c * s < n) (hc2 : n ≤ (c + 1) * s)
    (hE1 : -24 ≤ E) (hE2 : E ≤ 23) (hE3 : 0 ≤ E → s * 2 ^ E.toNat ≤ n) :
    s + 2 * (c * 2 ^ (23 - E).toNat) * s < 2 * (n * 2 ^ (23 - E).toNat) := by
  obtain ⟨r, hr⟩ : ∃ r, n = c * s + r := ⟨n - c * s, by omega⟩
  have hr1 : 1 ≤ r := by omega
  have hr2 : r ≤ s := by
    have : (c + 1) * s = c * s + s := by ring
    omega
  have hD : 0 < 2 ^ (23 - E).toNat := by positivity
  have key : s < 2 * 2 ^ (23 - E).toNat * r := by
    have hmono : 2 * 2 ^ (23 - E).toNat ≤ 2 * 2 ^ (23 - E).toNat * r :=
      Nat.le_mul_of_pos_right _ hr1
    by_cases hE : 0 ≤ E
    · by_cases hrs : r = s
      · rw [hrs]
        have h2 : 2 ≤ 2 * 2 ^ (23 - E).toNat := by omega
        have : 2 * s ≤ 2 * 2 ^ (23 - E).toNat * s := Nat.mul_le_mul_right s h2
        omega
      · have hlt : n < (c + 1) * s := by
          have : (c + 1) * s = c * s + s := by ring
          omega
        have h1 := hE3 hE
        have h2 : 2 ^ E.toNat * s < (c + 1) * s := by
          rw [Nat.mul_comm]
          exact lt_of_le_of_lt h1 hlt
        have h3 : 2 ^ E.toNat ≤ c := by
          have := Nat.lt_of_mul_lt_mul_right h2
          omega
        have h4 : s * 2 ^ E.toNat ≤ s * c := Nat.mul_le_mul_left s h3
        have h5 : s * c = c * s := Nat.mul_comm _ _
        have h6 : (2 : Nat) ^ 24 = 2 ^ E.toNat * (2 * 2 ^ (23 - E).toNat) := by
          rw [← pow_succ', ← pow_add]
          congr 1
          omega
        have h7 : s * 2 ^ E.toNat < 2 ^ E.toNat * (2 * 2 ^ (23 - E).toNat) := by omega
        rw [Nat.mul_comm s] at h7
        have h8 := Nat.lt_of_mul_lt_mul_left h7
        omega
    · have hk : 24 ≤ (23 - E).toNat := by omega
      have : (2 : Nat) ^ 24 ≤ 2 ^ (23 - E).toNat := Nat.pow_le_pow_right (by norm_num) hk
      omega
  have e : 2 * ((c * s + r) * 2 ^ (23 - E).toNat) =
      2 * (c * 2 ^ (23 - E).toNat) * s + 2 * 2 ^ (23 - E).toNat * r := by ring
  rw [hr, e]
  omega

theorem f32Round_ceil (n s P : Nat) (hn : 0 < n) (hn24 : n < 2 ^ 24) (hs : 0 < s)
    (hs24 : s < 2 ^ 24) (hP : 0 < P) :
    f32ToInt (f32Ceil (f32Round false (n * P) (s * P))) = ⌈(n : ℚ) / (s : ℚ)⌉ := by
  obtain ⟨hE1, hE2, hE3⟩ := ratLog2_bounds n s P hn hn24 hs hs24 hP
  obtain ⟨c, hc1, hc2, hceil⟩ := exists_ceil_nat n s hn hs
  have hB : 0 < s * P := Nat.mul_pos hs hP
  generalize hEdef : ratLog2 (n * P) (s * P) = E at hE1 hE2 hE3
  have hU : ulpExponent (n * P) (s * P) = E - 23 := by
    unfold ulpExponent
    rw [hEdef, max_eq_left (by omega)]
  have hk : (-(E - 23)).toNat = (23 - E).toNat := by congr 1; ring
  have hsig : significand (n * P) (s * P) =
      roundNearestEven (n * P * 2 ^ (23 - E).toNat) (s * P) := by
    unfold significand
    rw [hU]
    by_cases hu : 0 ≤ E - 23
    · have h23 : E = 23 := by omega
      rw [if_pos hu, h23]
      simp
    · rw [if_neg hu, hk]
  have hhalf := half_ulp_lt n s c E hs hn24 hs24 hc1 hc2 hE1 hE2 hE3
  -- the significand lies in (c * 2^k, (c + 1) * 2^k]
  have hle : significand (n * P) (s * P) ≤ (c + 1) * 2 ^ (23 - E).toNat := by
    rw [hsig]
    apply roundNearestEven_le hB
    have := Nat.mul_le_mul_right (P * 2 ^ (23 - E).toNat) hc2
    calc n * P * 2 ^ (23 - E).toNat = n * (P * 2 ^ (23 - E).toNat) := by ring
      _ ≤ (c + 1) * s * (P * 2 ^ (23 - E).toNat) := this
      _ = (c + 1) * 2 ^ (23 - E).toNat * (s * P) := by ring
  have hgt : c * 2 ^ (23 - E).toNat < significand (n * P) (s * P) := by
    rw [hsig]
    apply roundNearestEven_gt hB
    have := Nat.mul_lt_mul_of_pos_right hhalf hP
    calc 2 * (c * 2 ^ (23 - E).toNat) * (s * P) + s * P
        = (s + 2 * (c * 2 ^ (23 - E).toNat) * s) * P := by ring
      _ < 2 * (n * 2 ^ (23 - E).toNat) * P := this
      _ = 2 * (n * P * 2 ^ (23 - E).toNat) := by ring
  have hcn : c + 1 ≤ n := by
    have : c ≤ c * s := Nat.le_mul_of_pos_right c hs
    omega
  unfold f32Round
  rw [hU, hceil]
  generalize significand (n * P) (s * P) = M at hle hgt
  by_cases hu : 0 ≤ E - 23
  · have h23 : E = 23 := by omega
    subst h23
    simp only [sub_self, Int.toNat_zero, pow_zero, mul_one] at hle hgt ⊢
    have hM : M = c + 1 := by omega
    subst hM
    have hov : ¬ ((0 : Int) ≤ 0 ∧ 2 ^ 128 ≤ c + 1) := by
      rintro ⟨_, h⟩
      omega
    rw [if_neg hov]
    simp only [f32Ceil, f32ToInt, Bool.false_eq_true, if_false, le_refl, if_true,
      Int.toNat_zero, pow_zero, mul_one]
    rw [if_pos (by constructor <;> push_cast <;> omega)]
    push_cast
    rfl
  · have hov : ¬ (0 ≤ E - 23 ∧ 2 ^ 128 ≤ M * 2 ^ (E - 23).toNat) := fun h => hu h.1
    rw [if_neg hov]
    simp only [f32Ceil, Bool.false_eq_true, if_false, if_neg hu, hk]
    have hD : (0 : Int) < 2 ^ (23 - E).toNat := by positivity
    have hleZ : (M : Int) ≤ ((c : Int) + 1) * 2 ^ (23 - E).toNat := by exact_mod_cast hle
    have hgtZ : (c : Int) * 2 ^ (23 - E).toNat < (M : Int) := by exact_mod_cast hgt
    have hdiv : (-(M : Int)) / 2 ^ (23 - E).toNat = -((c : Int) + 1) := by
      apply le_antisymm
      · have : (-(M : Int)) / 2 ^ (23 - E).toNat < -(c : Int) :=
          Int.ediv_lt_of_lt_mul hD (by linarith)
        omega
      · exact Int.le_ediv_of_mul_le hD (by linarith)
    rw [hdiv]
    simp only [f32ToInt, le_refl, if_true, Int.toNat_zero, pow_zero, mul_one, neg_neg]
    rw [if_pos (by constructor <;> omega)]

theorem ilog2_lt_24 (a : Nat) (ha : 0 < a) (hlt : a < 2 ^ 24) : ilog2 a < 24 := by
  by_contra hc
  have h1 := (ilog2_spec a ha).1
  have : (2 : Nat) ^ 24 ≤ 2 ^ ilog2 a := Nat.pow_le_pow_right (by norm_num) (by omega)
  omega

/-- Where the `float` expression of the "full" convention is exact: for a
dividend and a divisor below `2 ^ 24` it equals the ceiling of the exact
quotient. -/
theorem ceilDivF32_exact (n s : Int) (hn : 0 ≤ n) (hn24 : n < 2 ^ 24) (hs : 0 < s)
    (hs24 : s < 2 ^ 24) : ceilDivF32 n s = ⌈(n : ℚ) / (s : ℚ)⌉ := by
  obtain ⟨a, rfl⟩ := Int.eq_ofNat_of_zero_le hn
  obtain ⟨b, rfl⟩ := Int.eq_ofNat_of_zero_le (le_of_lt hs)
  have hb : 0 < b := by exact_mod_cast hs
  have hb24 : b < 2 ^ 24 := by exact_mod_cast hs24
  have ha24 : a < 2 ^ 24 := by exact_mod_cast hn24
  by_cases ha : a = 0
  · subst ha
    rw [Nat.cast_zero, ceilDivF32_zero _ (ne_of_gt hs)]
    simp
  have ha0 : 0 < a := Nat.pos_of_ne_zero ha
  have hla := ilog2_lt_24 a ha0 ha24
  have hlb := ilog2_lt_24 b hb hb24
  unfold ceilDivF32
  rw [f32OfInt_exact a ha0 ha24, f32OfInt_exact b hb hb24]
  have hm1 : ((a * 2 ^ (23 - ilog2 a) : Nat) : Int) ≠ 0 := by
    have : 0 < a * 2 ^ (23 - ilog2 a) := Nat.mul_pos ha0 (by positivity)
    omega
  have hm2 : ((b * 2 ^ (23 - ilog2 b) : Nat) : Int) ≠ 0 := by
    have : 0 < b * 2 ^ (23 - ilog2 b) := Nat.mul_pos hb (by positivity)
    omega
  have hd1 : decide (((a * 2 ^ (23 - ilog2 a) : Nat) : Int) < 0) = false := by
    rw [decide_eq_false_iff_not]; omega
  have hd2 : decide (((b * 2 ^ (23 - ilog2 b) : Nat) : Int) < 0) = false := by
    rw [decide_eq_false_iff_not]; omega
  simp only [f32Div, if_neg hm1, if_neg hm2, hd1, hd2, Bool.xor_false, Int.natAbs_ofNat]
  have eA : a * 2 ^ (23 - ilog2 a) * 2 ^ ((ilog2 a : Int) - 23 - ((ilog2 b : Int) - 23)).toNat =
      a * 2 ^ ((23 - ilog2 a) + ((ilog2 a : Int) - 23 - ((ilog2 b : Int) - 23)).toNat) := by
    rw [pow_add, mul_assoc]
  have eB : b * 2 ^ (23 - ilog2 b) * 2 ^ ((ilog2 b : Int) - 23 - ((ilog2 a : Int) - 23)).toNat =
      b * 2 ^ ((23 - ilog2 a) + ((ilog2 a : Int) - 23 - ((ilog2 b : Int) - 23)).toNat) := by
    rw [mul_assoc, ← pow_add]
    congr 2
    omega
  rw [eA, eB]
  exact f32Round_ceil a b _ ha0 ha24 hb hb24 (by positivity)

/-- The "full" convention on small inputs: for non-global pooling with a
kernel of rank 1, 2 or 3, if on every kernel axis the stride is positive, the
kernel fits the padded input, and both the stride and
`dshape[i+2] + 2*pad[i] - kernel[i]` are below `2 ^ 24`, then `PoolingShape`
succeeds and every output spatial dimension is
`ceil((dshape[i+2] + 2*pad[i] - kernel[i]) / stride[i]) + 1`. -/
theorem PoolingShape_full_ceil_of_small (cfg : Build) (param : PoolingParam) (dshape : TShape)
    (out_shape : List TShape)
    (hg : param.global_pool = false)
    (hfull : param.pooling_convention = PoolingConvention.kFull)
    (hk : ndim param.kernel = 1 ∨ ndim param.kernel = 2 ∨ ndim param.kernel = 3)
    (hd : ndim dshape = ndim param.kernel + 2)
    (hax : ∀ i, i < ndim param.kernel →
      i < ndim param.pad ∧ 0 < param.stride.getD i 0 ∧ param.stride.getD i 0 < 2 ^ 24 ∧
        param.kernel.getD i 0 ≤ dshape.getD (i + 2) 0 + 2 * param.pad.getD i 0 ∧
        dshape.getD (i + 2) 0 + 2 * param.pad.getD i 0 - param.kernel.getD i 0 < 2 ^ 24)
    (hfit : ∀ i, i < ndim param.kernel →
      fitsDim (2 * param.pad.getD i 0) ∧
        fitsDim (dshape.getD (i + 2) 0 + 2 * param.pad.getD i 0)) :
    ∃ oshape ws, PoolingShape cfg param [dshape] out_shape = Except.ok (true, oshape :: ws) ∧
      ndim oshape = ndim dshape ∧
      ∀ i, i < ndim param.kernel →
        oshape.getD (i + 2) 0 =
          fullFormula (dshape.getD (i + 2) 0) (param.kernel.getD i 0) (param.pad.getD i 0)
            (param.stride.getD i 0) := by
  have hs : ∀ i, i < ndim param.kernel → param.stride[i]? = some (param.stride.getD i 0) :=
    fun i hi => getElem?_of_getD_pos (hax i hi).2.1
  have hc : ¬ param.pooling_convention = PoolingConvention.kValid := by
    rw [hfull]; decide
  have hp : ∀ i, i < ndim param.kernel → param.pad[i]? = some (param.pad.getD i 0) :=
    fun i hi => getElem?_of_lt_ndim (hax i hi).1
  rcases hk with h1 | h2 | h3
  · obtain ⟨k0, hk0⟩ := List.length_eq_one.mp h1
    rw [h1] at hd
    obtain ⟨a, b, x, rfl⟩ := List.length_eq_three.mp hd
    have a0 := hax 0 (by omega)
    rw [hk0] at a0
    simp only [List.getD_cons_zero, List.getD_cons_succ] at a0
    have g0 := hfit 0 (by omega)
    simp only [List.getD_cons_zero, List.getD_cons_succ] at g0
    have e0 := paddedInput_of_fits g0.1 g0.2
    have d0 := @poolDividend_of_fits _ _ k0 g0.1 g0.2
      (fitsDim_of_small (by linarith [a0.2.2.2.1]) a0.2.2.2.2)
    refine ⟨[a, b, 1 + ceilDivF32 (x + 2 * param.pad.getD 0 0 - k0) (param.stride.getD 0 0)],
      if GetNumOutputs cfg param = 2 then
        [[a, b, 1 + ceilDivF32 (x + 2 * param.pad.getD 0 0 - k0) (param.stride.getD 0 0)]]
      else [], ?_, rfl, ?_⟩
    · rw [PoolingShape_1d cfg param a b x k0 _ _ out_shape hg hk0 (hs 0 (by omega))
        (hp 0 (by omega)), e0, d0, if_pos a0.2.2.2.1, if_neg hc, saveOutputShape_eq]
    · intro i hi
      have hi0 : i = 0 := by omega
      subst hi0
      simp only [hk0, List.getD_cons_zero, List.getD_cons_succ, fullFormula]
      rw [ceilDivF32_exact _ _ (by linarith [a0.2.2.2.1]) a0.2.2.2.2 a0.2.1 a0.2.2.1]
      ring
  · obtain ⟨k0, k1, hk0⟩ := List.length_eq_two.mp h2
    rw [h2] at hd
    obtain ⟨a, b, x, y, rfl⟩ : ∃ a b x y, dshape = [a, b, x, y] := by
      match dshape, hd with
      | [a, b, x, y], _ => exact ⟨a, b, x, y, rfl⟩
    have a0 := hax 0 (by omega)
    have a1 := hax 1 (by omega)
    rw [hk0] at a0 a1
    simp only [List.getD_cons_zero, List.getD_cons_succ] at a0 a1
    have g0 := hfit 0 (by omega)
    have g1 := hfit 1 (by omega)
    simp only [List.getD_cons_zero, List.getD_cons_succ] at g0 g1
    have e0 := paddedInput_of_fits g0.1 g0.2
    have d0 := @poolDividend_of_fits _ _ k0 g0.1 g0.2
      (fitsDim_of_small (by linarith [a0.2.2.2.1]) a0.2.2.2.2)
    have e1 := paddedInput_of_fits g1.1 g1.2
    have d1 := @poolDividend_of_fits _ _ k1 g1.1 g1.2
      (fitsDim_of_small (by linarith [a1.2.2.2.1]) a1.2.2.2.2)
    refine ⟨[a, b, 1 + ceilDivF32 (x + 2 * param.pad.getD 0 0 - k0) (param.stride.getD 0 0),
        1 + ceilDivF32 (y + 2 * param.pad.getD 1 0 - k1) (param.stride.getD 1 0)],
      if GetNumOutputs cfg param = 2 then
        [[a, b, 1 + ceilDivF32 (x + 2 * param.pad.getD 0 0 - k0) (param.stride.getD 0 0),
          1 + ceilDivF32 (y + 2 * param.pad.getD 1 0 - k1) (param.stride.getD 1 0)]]
      else [], ?_, rfl, ?_⟩
    · rw [PoolingShape_2d cfg param a b x y k0 k1 _ _ _ _ out_shape hg hk0 (hs 0 (by omega))
        (hp 0 (by omega)) (hs 1 (by omega)) (hp 1 (by omega)),
        e0, e1, d0, d1, if_pos ⟨a0.2.2.2.1, a1.2.2.2.1⟩, if_neg hc, saveOutputShape_eq]
    · intro i hi
      have hi0 : i = 0 ∨ i = 1 := by omega
      rcases hi0 with rfl | rfl
      · simp only [hk0, List.getD_cons_zero, List.getD_cons_succ, fullFormula]
        rw [ceilDivF32_exact _ _ (by linarith [a0.2.2.2.1]) a0.2.2.2.2 a0.2.1 a0.2.2.1]
        ring
      · simp only [hk0, List.getD_cons_zero, List.getD_cons_succ, fullFormula]
        rw [ceilDivF32_exact _ _ (by linarith [a1.2.2.2.1]) a1.2.2.2.2 a1.2.1 a1.2.2.1]
        ring
  · obtain ⟨k0, k1, k2, hk0⟩ := List.length_eq_three.mp h3
    rw [h3] at hd
    obtain ⟨a, b, x, y, z, rfl⟩ : ∃ a b x y z, dshape = [a, b, x, y, z] := by
      match dshape, hd with
      | [a, b, x, y, z], _ => exact ⟨a, b, x, y, z, rfl⟩
    have a0 := hax 0 (by omega)
    have a1 := hax 1 (by omega)
    have a2 := hax 2 (by omega)
    rw [hk0] at a0 a1 a2
    simp only [List.getD_cons_zero, List.getD_cons_succ] at a0 a1 a2
    have g0 := hfit 0 (by omega)
    have g1 := hfit 1 (by omega)
    have g2 := hfit 2 (by omega)
    simp only [List.getD_cons_zero, List.getD_cons_succ] at g0 g1 g2
    have e0 := paddedInput_of_fits g0.1 g0.2
    have d0 := @poolDividend_of_fits _ _ k0 g0.1 g0.2
      (fitsDim_of_small (by linarith [a0.2.2.2.1]) a0.2.2.2.2)
    have e1 := paddedInput_of_fits g1.1 g1.2
    have d1 := @poolDividend_of_fits _ _ k1 g1.1 g1.2
      (fitsDim_of_small (by linarith [a1.2.2.2.1]) a1.2.2.2.2)
    have e2 := paddedInput_of_fits g2.1 g2.2
    have d2 := @poolDividend_of_fits _ _ k2 g2.1 g2.2
      (fitsDim_of_small (by linarith [a2.2.2.2.1]) a2.2.2.2.2)
    refine ⟨[a, b, 1 + ceilDivF32 (x + 2 * param.pad.getD 0 0 - k0) (param.stride.getD 0 0),
        1 + ceilDivF32 (y + 2 * param.pad.getD 1 0 - k1) (param.stride.getD 1 0),
        1 + ceilDivF32 (z + 2 * param.pad.getD 2 0 - k2) (param.stride.getD 2 0)],
      if GetNumOutputs cfg param = 2 then
        [[a, b, 1 + ceilDivF32 (x + 2 * param.pad.getD 0 0 - k0) (param.stride.getD 0 0),
          1 + ceilDivF32 (y + 2 * param.pad.getD 1 0 - k1) (param.stride.getD 1 0),
          1 + ceilDivF32 (z + 2 * param.pad.getD 2 0 - k2) (param.stride.getD 2 0)]]
      else [], ?_, rfl, ?_⟩
    · rw [PoolingShape_3d cfg param a b x y z k0 k1 k2 _ _ _ _ _ _ out_shape hg hk0
        (hs 0 (by omega)) (hp 0 (by omega)) (hs 1 (by omega)) (hp 1 (by omega))
        (hs 2 (by omega)) (hp 2 (by omega)),
        e0, e1, e2, d0, d1, d2, if_pos ⟨a0.2.2.2.1, a1.2.2.2.1, a2.2.2.2.1⟩, if_neg hc,
        saveOutputShape_eq]
    · intro i hi
      have hi0 : i = 0 ∨ i = 1 ∨ i = 2 := by omega
      rcases hi0 with rfl | rfl | rfl
      · simp only [hk0, List.getD_cons_zero, List.getD_cons_succ, fullFormula]
        rw [ceilDivF32_exact _ _ (by linarith [a0.2.2.2.1]) a0.2.2.2.2 a0.2.1 a0.2.2.1]
        ring
      · simp only [hk0, List.getD_cons_zero, List.getD_cons_succ, fullFormula]
        rw [ceilDivF32_exact _ _ (by linarith [a1.2.2.2.1]) a1.2.2.2.2 a1.2.1 a1.2.2.1]
        ring
      · simp only [hk0, List.getD_cons_zero, List.getD_cons_succ, fullFormula]
        rw [ceilDivF32_exact _ _ (by linarith [a2.2.2.2.1]) a2.2.2.2.2 a2.2.1 a2.2.2.1]
        ring

/-! ## Facts about the layout core -/

theorem get_size_div (pd : LayoutDescriptor) : pd.get_size / sizeofReal = pd.count := by
  unfold LayoutDescriptor.get_size
  exact Nat.mul_div_cancel _ (by decide)

theorem rowMajor_length {α : Type} [Inhabited α] (E : Engine) (mem : Memory α) :
    (rowMajor E mem).length = mem.pd.count := by
  simp [rowMajor]

theorem rowMajor_arrange {α : Type} [Inhabited α] {E : Engine} (hE : E.Valid)
    (pd : LayoutDescriptor) (xs : List α) (hx : xs.length = pd.count) :
    rowMajor E ⟨pd, arrange E pd xs⟩ = xs := by
  apply List.ext_getElem
  · simp [rowMajor, hx]
  · intro i h1 h2
    have hi : i < pd.count := by rw [← hx]; exact h2
    have hmem : i ∈ E.arrangement pd := (hE pd).1.mem_iff.mpr (List.mem_range.mpr hi)
    have hidx : (E.arrangement pd).indexOf i < (E.arrangement pd).length :=
      List.indexOf_lt_length.mpr hmem
    simp only [rowMajor, arrange, List.getElem_map, List.getElem_range]
    rw [List.getD_eq_getElem _ _ (by simpa using hidx)]
    simp only [List.getElem_map, List.getElem_indexOf]
    exact List.getD_eq_getElem _ _ h2

theorem arrange_default {α : Type} [Inhabited α] {E : Engine} (hE : E.Valid)
    (pd : LayoutDescriptor) (hd : pd.format = E.GetDefaultFormat pd) (xs : List α)
    (hx : xs.length = pd.count) : arrange E pd xs = xs := by
  unfold arrange
  rw [(hE pd).2.1 hd]
  apply List.ext_getElem
  · simp [hx]
  · intro i h1 h2
    simp only [List.getElem_map, List.getElem_range]
    exact List.getD_eq_getElem _ _ h2

theorem rowMajor_default {α : Type} [Inhabited α] {E : Engine} (hE : E.Valid)
    (mem : Memory α) (hd : mem.pd.format = E.GetDefaultFormat mem.pd)
    (hx : mem.handle.length = mem.pd.count) : rowMajor E mem = mem.handle := by
  have h := rowMajor_arrange hE mem.pd mem.handle hx
  rw [arrange_default hE mem.pd hd mem.handle hx] at h
  exact h

theorem alloc_default {α : Type} [Inhabited α] (s : Dims) :
    (NDArray.alloc s default_type_flag : NDArray α) =
      ⟨Chunk.canonical (List.replicate (Size s) default), 0, s, default_type_flag,
        Ownership.owned⟩ := by
  unfold NDArray.alloc
  rw [show Size s * GetTypeSize default_type_flag / sizeofReal = Size s from
    Nat.mul_div_cancel _ (by decide)]

theorem write_whole {α : Type} [Inhabited α] (E : Engine) (cells xs : List α) (shape : Dims)
    (dtype : DType) (own : Ownership) (h : xs.length = cells.length) :
    NDArray.write E ⟨Chunk.canonical cells, 0, shape, dtype, own⟩ xs =
      ⟨Chunk.canonical xs, 0, shape, dtype, own⟩ := by
  simp [NDArray.write, canonicalCells, h]

theorem InitArray_alloc {α : Type} [Inhabited α] (E : Engine) (s : Dims) (value : Nat → α) :
    InitArray E (NDArray.alloc s default_type_flag) value =
      ⟨Chunk.canonical ((List.range (Size s)).map value), 0, s, default_type_flag,
        Ownership.owned⟩ := by
  rw [alloc_default]
  unfold InitArray
  exact write_whole E _ _ _ _ _ (by simp)

theorem reversingEngine_valid : reversingEngine.Valid := by
  intro pd
  refine ⟨?_, ?_, rfl, rfl⟩
  · unfold reversingEngine
    simp only
    split_ifs
    · exact List.Perm.refl _
    · exact List.reverse_perm _
  · intro h
    unfold reversingEngine at h ⊢
    simp only at h ⊢
    rw [if_pos h]

theorem canonicalCells_canonical {α : Type} [Inhabited α] (E : Engine) (cells : List α) :
    canonicalCells E (Chunk.canonical cells) = cells := rfl

theorem canonicalCells_shadowed {α : Type} [Inhabited α] (E : Engine) (mem : Memory α) :
    canonicalCells E (Chunk.shadowed mem) = rowMajor E mem := rfl

theorem data_length {α : Type} [Inhabited α] (E : Engine) (arr : NDArray α)
    (h : arr.offset + Size arr.shape ≤ (canonicalCells E arr.chunk).length) :
    (arr.data E).length = Size arr.shape := by
  simp only [NDArray.data, List.length_take, List.length_drop]
  omega

theorem Reorder2Default_data {α : Type} [Inhabited α] (E : Engine) (arr : NDArray α) :
    (arr.Reorder2Default E).data E = arr.data E := by
  simp [NDArray.Reorder2Default, NDArray.data, canonicalCells, List.take_take]

theorem write_data {α : Type} [Inhabited α] (E : Engine) (arr : NDArray α) (xs : List α)
    (h : arr.offset + Size arr.shape ≤ (canonicalCells E arr.chunk).length)
    (hx : xs.length = Size arr.shape) : (arr.write E xs).data E = xs := by
  have h1 : ((canonicalCells E arr.chunk).take arr.offset).length = arr.offset := by
    rw [List.length_take]
    omega
  simp only [NDArray.data, NDArray.write, canonicalCells_canonical, List.append_assoc]
  rw [List.drop_left' h1, List.take_left' hx]

theorem GetMKLDNNData_row {α : Type} [Inhabited α] {E : Engine} (hE : E.Valid)
    (arr : NDArray α)
    (h1 : arr.offset + Size arr.shape ≤ (canonicalCells E arr.chunk).length)
    (h2 : arr.IsMKLDNNData = true → arr.IsView = false ∧ arr.offset = 0 ∧
      (canonicalCells E arr.chunk).length = Size arr.shape) :
    (arr.GetMKLDNNData E).pd.count = Size arr.shape ∧
      rowMajor E (arr.GetMKLDNNData E) = arr.data E := by
  have hcanon : (⟨⟨arr.shape, E.canonicalFormat arr.shape⟩, arr.data E⟩ : Memory α).pd.count =
        Size arr.shape ∧
      rowMajor E ⟨⟨arr.shape, E.canonicalFormat arr.shape⟩, arr.data E⟩ = arr.data E :=
    ⟨rfl, rowMajor_default hE _ ((hE ⟨arr.shape, E.canonicalFormat arr.shape⟩).2.2.2).symm
      (data_length E arr h1)⟩
  rcases arr with ⟨chunk, offset, shape, dtype, own⟩
  cases chunk with
  | canonical cells => exact hcanon
  | shadowed mem =>
    obtain ⟨hv, ho, hc⟩ := h2 rfl
    simp only at ho hc hv
    subst ho
    simp only [NDArray.GetMKLDNNData, hv, Bool.false_eq_true, if_false]
    simp only [canonicalCells_shadowed, rowMajor_length] at hc
    refine ⟨hc, ?_⟩
    simp only [NDArray.data, canonicalCells_shadowed, List.drop_zero]
    rw [List.take_of_length_le]
    rw [rowMajor_length, hc]

theorem copyFromBody_ok {α : Type} [DecidableEq α] [Inhabited α] {E : Engine}
    (hE : E.Valid) (in_arr out_arr : NDArray α) (stream : MKLDNNStream α)
    (hin : in_arr.WellFormed E) (hout : out_arr.WellFormed E)
    (hsz : Size out_arr.shape = Size in_arr.shape) :
    (∃ in0 out0 : NDArray α,
        in0 = (if in_arr.IsMKLDNNData && in_arr.IsView then in_arr.Reorder2Default E
          else in_arr) ∧
        out_arr.CopyFrom E (in0.GetMKLDNNData E) = .ok out0 ∧
        (out0.Reorder2Default E).data E = (in0.Reorder2Default E).data E ∧
        Size (out0.Reorder2Default E).shape = Size (in0.Reorder2Default E).shape ∧
        (in0.Reorder2Default E).data E = in_arr.data E) ∧
      copyFromBody E in_arr out_arr stream =
        .ok (some ⟨true, true⟩, stream.Submit E true) := by
  obtain ⟨in0, hin0⟩ : ∃ in0 : NDArray α, in0 =
      (if in_arr.IsMKLDNNData && in_arr.IsView then in_arr.Reorder2Default E else in_arr) :=
    ⟨_, rfl⟩
  have hshape : in0.shape = in_arr.shape := by
    rw [hin0]
    split_ifs <;> rfl
  have hdata : in0.data E = in_arr.data E := by
    rw [hin0]
    split_ifs
    · exact Reorder2Default_data E in_arr
    · rfl
  have h1 : in0.offset + Size in0.shape ≤ (canonicalCells E in0.chunk).length := by
    rw [hin0]
    split_ifs
    · have := data_length E in_arr hin.1
      simp only [NDArray.Reorder2Default, canonicalCells, this]
      omega
    · exact hin.1
  have h2 : in0.IsMKLDNNData = true → in0.IsView = false ∧ in0.offset = 0 ∧
      (canonicalCells E in0.chunk).length = Size in0.shape := by
    rw [hin0]
    split_ifs with hc
    · intro h
      simp [NDArray.Reorder2Default, NDArray.IsMKLDNNData] at h
    · intro h
      have hv : in_arr.IsView = false := by
        cases hview : in_arr.IsView
        · rfl
        · rw [h, hview] at hc
          simp at hc
      exact ⟨hv, hin.2 h hv⟩
  obtain ⟨hcount, hrow⟩ := GetMKLDNNData_row hE in0 h1 h2
  have hcopy : out_arr.CopyFrom E (in0.GetMKLDNNData E) =
      .ok (out_arr.write E (rowMajor E (in0.GetMKLDNNData E))) := by
    unfold NDArray.CopyFrom
    rw [if_neg (by rw [hcount, hshape, hsz]; simp)]
    rfl
  have hlen : (in0.data E).length = Size out_arr.shape := by
    rw [data_length E in0 h1, hshape, hsz]
  have hout_data : (out_arr.write E (rowMajor E (in0.GetMKLDNNData E))).data E = in0.data E := by
    rw [hrow]
    exact write_data E out_arr _ hout.1 hlen
  have hres : ((out_arr.write E (rowMajor E (in0.GetMKLDNNData E))).Reorder2Default E).data E =
      (in0.Reorder2Default E).data E := by
    rw [Reorder2Default_data, Reorder2Default_data, hout_data]
  have hsize : Size ((out_arr.write E (rowMajor E (in0.GetMKLDNNData E))).Reorder2Default E).shape
      = Size (in0.Reorder2Default E).shape := by
    simp only [NDArray.Reorder2Default, NDArray.write, hshape, hsz]
  refine ⟨⟨in0, _, hin0, hcopy, hres, hsize, by rw [Reorder2Default_data, hdata]⟩, ?_⟩
  unfold copyFromBody
  simp only [← hin0]
  rw [hcopy]
  simp only [bind, Except.bind, pure, Except.pure, VerifyCopyResult, List.getElem?_cons_zero,
    hres, hsize, decide_True]

theorem Size_cons (f : Nat) (t : Dims) : Size (f :: t) = f * Size t := by
  simp [Size]

theorem InitArray_whole {α : Type} [Inhabited α] (E : Engine) (cells : List α) (shape : Dims)
    (dtype : DType) (own : Ownership) (value : Nat → α) (h : cells.length = Size shape) :
    InitArray E ⟨Chunk.canonical cells, 0, shape, dtype, own⟩ value =
      ⟨Chunk.canonical ((List.range (Size shape)).map value), 0, shape, dtype, own⟩ := by
  unfold InitArray
  exact write_whole E _ _ _ _ _ (by simp [h])

theorem InitMKLDNNArray_whole {α : Type} [Inhabited α] (E : Engine) (cells : List α)
    (shape : Dims) (dtype : DType) (own : Ownership) (pd : LayoutDescriptor) (value : Nat → α)
    (h : cells.length = Size shape) :
    InitMKLDNNArray E ⟨Chunk.canonical cells, 0, shape, dtype, own⟩ pd value =
      if pd.format = E.GetDefaultFormat pd then
        ⟨Chunk.canonical ((List.range (Size shape)).map value), 0, shape, dtype, own⟩
      else
        ⟨Chunk.shadowed ⟨pd, arrange E pd ((List.range (Size shape)).map value)⟩, 0, shape,
          dtype, own⟩ := by
  unfold InitMKLDNNArray
  simp only
  rw [write_whole E _ _ _ _ _ (by simp [h])]
  unfold NDArray.MKLDNNDataReorderAsync
  simp only [canonicalCells]

theorem wellFormed_whole {α : Type} [Inhabited α] (E : Engine) (cells : List α) (shape : Dims)
    (dtype : DType) (own : Ownership) (h : cells.length = Size shape) :
    NDArray.WellFormed E ⟨Chunk.canonical cells, 0, shape, dtype, own⟩ := by
  refine ⟨by simp [canonicalCells_canonical, h], ?_⟩
  intro hm
  simp [NDArray.IsMKLDNNData] at hm

theorem wellFormed_slice {α : Type} [Inhabited α] (E : Engine) (cells : List α) (t : Dims)
    (dtype : DType) (own : Ownership) (rows n : Nat) (h : (1 + n) * Size t ≤ cells.length) :
    NDArray.WellFormed E
      (NDArray.Slice ⟨Chunk.canonical cells, 0, rows :: t, dtype, own⟩ 1 (n + 1)) := by
  refine ⟨?_, ?_⟩
  · simp only [NDArray.Slice, canonicalCells_canonical, List.tail_cons, Size_cons]
    rw [Nat.add_sub_cancel]
    calc 0 + 1 * Size t + n * Size t = (1 + n) * Size t := by ring
      _ ≤ cells.length := h
  · intro hm
    simp [NDArray.IsMKLDNNData, NDArray.Slice] at hm

theorem wellFormed_layout {α : Type} [Inhabited α] (E : Engine)
    (cells : List α) (shape : Dims) (dtype : DType) (own : Ownership) (pd : LayoutDescriptor)
    (value : Nat → α) (h : cells.length = Size shape) (hpd : pd.count = Size shape) :
    NDArray.WellFormed E
        (InitMKLDNNArray E ⟨Chunk.canonical cells, 0, shape, dtype, own⟩ pd value) ∧
      (InitMKLDNNArray E ⟨Chunk.canonical cells, 0, shape, dtype, own⟩ pd value).shape = shape ∧
      (InitMKLDNNArray E ⟨Chunk.canonical cells, 0, shape, dtype, own⟩ pd value).offset = 0 ∧
      (canonicalCells E
        (InitMKLDNNArray E ⟨Chunk.canonical cells, 0, shape, dtype, own⟩ pd value).chunk).length =
        Size shape := by
  rw [InitMKLDNNArray_whole E cells shape dtype own pd value h]
  split_ifs
  · exact ⟨wellFormed_whole E _ _ _ _ (by simp), rfl, rfl, by simp [canonicalCells_canonical]⟩
  · refine ⟨⟨?_, ?_⟩, rfl, rfl, ?_⟩
    · simp only [canonicalCells_shadowed, rowMajor_length, hpd]
      omega
    · intro _ _
      exact ⟨rfl, by simp only [canonicalCells_shadowed, rowMajor_length, hpd]⟩
    · simp only [canonicalCells_shadowed, rowMajor_length, hpd]

theorem GetTestInputArrays_wellFormed {α : Type} [Inhabited α] (E : Engine)
    (cast : Nat → α) (tas : TestArrayShapes) (hrows : ∀ s ∈ tas.shapes, 3 ≤ s.headD 0)
    (in_arr : NDArray α) (hin : in_arr ∈ GetTestInputArrays E cast tas) :
    in_arr.WellFormed E ∧ ∃ f t, in_arr.shape = f :: t ∧ 1 ≤ f := by
  unfold GetTestInputArrays at hin
  rw [List.mem_flatMap] at hin
  obtain ⟨shape, hshape, hin⟩ := hin
  have h3 := hrows shape hshape
  obtain ⟨f, t, rfl⟩ : ∃ f t, shape = f :: t := by
    cases shape with
    | nil => simp at h3
    | cons f t => exact ⟨f, t, rfl⟩
  simp only [List.headD_cons] at h3
  rw [List.mem_cons] at hin
  rcases hin with hin | hin
  · rw [hin, InitArray_alloc]
    exact ⟨wellFormed_whole E _ _ _ _ (by simp), f, t, rfl, by omega⟩
  · rw [List.mem_flatMap] at hin
    obtain ⟨pd, _, hin⟩ := hin
    split_ifs at hin with hne
    · simp at hin
    · rw [get_size_div] at hne
      have hpd : pd.count = Size (f :: t) := by
        simp only [ne_eq, not_not] at hne
        exact hne.symm
      rw [alloc_default] at hin
      obtain ⟨hwf, hsh, hoff, hcap⟩ := wellFormed_layout E
        (List.replicate (Size (f :: t)) (default : α)) (f :: t) default_type_flag Ownership.owned
        pd cast (by simp) hpd
      generalize InitMKLDNNArray E (⟨Chunk.canonical (List.replicate (Size (f :: t)) default), 0,
        f :: t, default_type_flag, Ownership.owned⟩ : NDArray α) pd cast = arr
        at hin hwf hsh hoff hcap
      simp only [List.mem_cons, List.mem_singleton, List.not_mem_nil, or_false] at hin
      rcases hin with hin | hin
      · rw [hin]
        exact ⟨hwf, f, t, hsh, by omega⟩
      · rw [hin]
        refine ⟨⟨?_, ?_⟩, f - 1 - 1, t, ?_, by omega⟩
        · simp only [NDArray.Slice, hsh, hoff, List.headD_cons, List.tail_cons, hcap]
          rw [Size_cons, Size_cons]
          calc 0 + 1 * Size t + (f - 1 - 1) * Size t = (1 + (f - 1 - 1)) * Size t := by ring
            _ ≤ f * Size t := Nat.mul_le_mul_right _ (by omega)
        · intro _ hv
          simp [NDArray.Slice, NDArray.IsView] at hv
        · simp only [NDArray.Slice, hsh, List.headD_cons, List.tail_cons]

theorem outputArraysOfLayouts_wellFormed {α : Type} [Inhabited α] (E : Engine)
    (rand : Nat → α) (shape : Dims) (pds : List LayoutDescriptor) :
    ∀ (drawn : Nat) (out_arr : NDArray α),
      out_arr ∈ outputArraysOfLayouts E rand shape pds drawn →
      out_arr.WellFormed E ∧ Size out_arr.shape = Size shape := by
  induction pds with
  | nil =>
    intro drawn out_arr hout
    simp [outputArraysOfLayouts] at hout
  | cons pd pds ih =>
    intro drawn out_arr hout
    unfold outputArraysOfLayouts at hout
    split_ifs at hout with hne
    · exact ih drawn out_arr hout
    · rw [get_size_div] at hne
      have hpd : pd.count = Size shape := by
        simp only [ne_eq, not_not] at hne
        exact hne.symm
      simp only [List.mem_cons] at hout
      rcases hout with hout | hout | hout
      · rw [hout, alloc_default]
        obtain ⟨hwf, hsh, _, _⟩ := wellFormed_layout E
          (List.replicate (Size shape) (default : α)) shape default_type_flag Ownership.owned
          pd (fun i => rand (drawn + i)) (by simp) hpd
        exact ⟨hwf, congrArg Size hsh⟩
      · rw [hout, alloc_default]
        obtain ⟨hwf, hsh, _, _⟩ := wellFormed_layout E
          (List.replicate (Size [Size shape]) (default : α)) shape default_type_flag
          Ownership.reused pd (fun i => rand (drawn + Size shape + i)) (by simp [Size]) hpd
        exact ⟨hwf, congrArg Size hsh⟩
      · exact ih _ out_arr hout

theorem GetTestOutputArrays_wellFormed {α : Type} [Inhabited α] (E : Engine)
    (rand : Nat → α) (f : Nat) (t : Dims) (hf : 1 ≤ f) (pds : List LayoutDescriptor)
    (drawn : Nat) (out_arr : NDArray α)
    (hout : out_arr ∈ GetTestOutputArrays E rand (f :: t) pds drawn) :
    out_arr.WellFormed E ∧ Size out_arr.shape = Size (f :: t) := by
  unfold GetTestOutputArrays at hout
  simp only [List.mem_append, List.mem_cons, List.not_mem_nil, or_false, List.headD_cons,
    List.set_cons_zero] at hout
  have hdouble : (1 + f) * Size t ≤ Size (f * 2 :: t) := by
    rw [Size_cons]
    exact Nat.mul_le_mul_right _ (by omega)
  rcases hout with (hout | hout | hout | hout | hout) | hout
  · rw [hout, InitArray_alloc]
    exact ⟨wellFormed_whole E _ _ _ _ (by simp), rfl⟩
  · rw [hout, InitArray_alloc]
    refine ⟨wellFormed_slice E _ t _ _ _ f (by simpa using hdouble), ?_⟩
    simp [NDArray.Slice]
  · rw [hout, alloc_default]
    simp only [NDArray.AsArray]
    rw [InitArray_whole E _ _ _ _ _ (by simp [Size])]
    exact ⟨wellFormed_whole E _ _ _ _ (by simp), rfl⟩
  · rw [hout]
    simp only [NDArray.alloc, NDArray.AsArray]
    rw [InitArray_whole E _ _ _ _ _ (by simp [Size, GetTypeSize, sizeofReal, default_type_flag])]
    exact ⟨wellFormed_whole E _ _ _ _ (by simp), rfl⟩
  · rw [hout]
    simp only [NDArray.alloc, NDArray.AsArray]
    have hcells : Size [Size (f :: t) * 4 * 2] * 1 / 4 = Size (f * 2 :: t) := by
      have e : Size [Size (f :: t) * 4 * 2] * 1 = Size (f * 2 :: t) * 4 := by
        simp only [Size, List.prod_cons, List.prod_nil]
        ring
      rw [e, Nat.mul_div_cancel _ (by decide)]
    rw [InitArray_whole E _ _ _ _ _ (by
      simp only [List.length_replicate, GetTypeSize, sizeofReal, default_type_flag]
      exact hcells)]
    refine ⟨wellFormed_slice E _ t _ _ _ f (by simpa using hdouble), ?_⟩
    simp [NDArray.Slice]
  · exact outputArraysOfLayouts_wellFormed E rand (f :: t) pds _ out_arr hout

/-! ## The claims -/

/-- C1, amended: for non-global pooling with the "valid" convention, a kernel of
rank 1, 2 or 3 and an input of rank two more, if on every kernel axis the
stride is positive, the pad is non-negative, the kernel fits the padded input
and no `dim_t` operation overflows (`2*pad[i]`, `dshape[i+2] + 2*pad[i]`,
`dshape[i+2] + 2*pad[i] - kernel[i]` and the result are `int64_t` values), then
`PoolingShape` succeeds and every output spatial dimension is
`floor((dshape[i+2] + 2*pad[i] - kernel[i]) / stride[i]) + 1`. -/
theorem PoolingShape_valid_floor (cfg : Build) (param : PoolingParam) (dshape : TShape)
    (out_shape : List TShape)
    (hg : param.global_pool = false)
    (hc : param.pooling_convention = PoolingConvention.kValid)
    (hk : ndim param.kernel = 1 ∨ ndim param.kernel = 2 ∨ ndim param.kernel = 3)
    (hd : ndim dshape = ndim param.kernel + 2)
    (hax : ∀ i, i < ndim param.kernel →
      i < ndim param.pad ∧ 0 < param.stride.getD i 0 ∧ 0 ≤ param.pad.getD i 0 ∧
        param.kernel.getD i 0 ≤ dshape.getD (i + 2) 0 + 2 * param.pad.getD i 0)
    (hfit : ∀ i, i < ndim param.kernel →
      fitsDim (2 * param.pad.getD i 0) ∧
        fitsDim (dshape.getD (i + 2) 0 + 2 * param.pad.getD i 0) ∧
        fitsDim (dshape.getD (i + 2) 0 + 2 * param.pad.getD i 0 - param.kernel.getD i 0) ∧
        fitsDim (validFormula (dshape.getD (i + 2) 0) (param.kernel.getD i 0)
          (param.pad.getD i 0) (param.stride.getD i 0))) :
    ∃ oshape ws, PoolingShape cfg param [dshape] out_shape = Except.ok (true, oshape :: ws) ∧
      ndim oshape = ndim dshape ∧
      ∀ i, i < ndim param.kernel →
        oshape.getD (i + 2) 0 =
          validFormula (dshape.getD (i + 2) 0) (param.kernel.getD i 0) (param.pad.getD i 0)
            (param.stride.getD i 0) := by
  have hs : ∀ i, i < ndim param.kernel → param.stride[i]? = some (param.stride.getD i 0) :=
    fun i hi => getElem?_of_getD_pos (hax i hi).2.1
  have hp : ∀ i, i < ndim param.kernel → param.pad[i]? = some (param.pad.getD i 0) :=
    fun i hi => getElem?_of_lt_ndim (hax i hi).1
  rcases hk with h1 | h2 | h3
  · obtain ⟨k0, hk0⟩ := List.length_eq_one.mp h1
    rw [h1] at hd
    obtain ⟨a, b, x, rfl⟩ := List.length_eq_three.mp hd
    have a0 := hax 0 (by omega)
    have g0 := hfit 0 (by omega)
    rw [hk0] at a0 g0
    simp only [List.getD_cons_zero, List.getD_cons_succ] at a0 g0
    have v0 := validDim_axis a0.2.1 a0.2.2.2 g0.1 g0.2.1 g0.2.2.1 g0.2.2.2
    refine ⟨[a, b, validFormula x k0 (param.pad.getD 0 0) (param.stride.getD 0 0)],
      if GetNumOutputs cfg param = 2 then
        [[a, b, validFormula x k0 (param.pad.getD 0 0) (param.stride.getD 0 0)]]
      else [], ?_, rfl, ?_⟩
    · rw [PoolingShape_1d cfg param a b x k0 _ _ out_shape hg hk0 (hs 0 (by omega))
        (hp 0 (by omega)), if_pos v0.1, if_pos hc, v0.2.1, v0.2.2, saveOutputShape_eq]
      rfl
    · intro i hi
      have hi0 : i = 0 := by omega
      subst hi0
      simp only [hk0, List.getD_cons_zero, List.getD_cons_succ]
  · obtain ⟨k0, k1, hk0⟩ := List.length_eq_two.mp h2
    rw [h2] at hd
    obtain ⟨a, b, x, y, rfl⟩ : ∃ a b x y, dshape = [a, b, x, y] := by
      match dshape, hd with
      | [a, b, x, y], _ => exact ⟨a, b, x, y, rfl⟩
    have a0 := hax 0 (by omega)
    have a1 := hax 1 (by omega)
    have g0 := hfit 0 (by omega)
    have g1 := hfit 1 (by omega)
    rw [hk0] at a0 a1 g0 g1
    simp only [List.getD_cons_zero, List.getD_cons_succ] at a0 a1 g0 g1
    have v0 := validDim_axis a0.2.1 a0.2.2.2 g0.1 g0.2.1 g0.2.2.1 g0.2.2.2
    have v1 := validDim_axis a1.2.1 a1.2.2.2 g1.1 g1.2.1 g1.2.2.1 g1.2.2.2
    refine ⟨[a, b, validFormula x k0 (param.pad.getD 0 0) (param.stride.getD 0 0),
        validFormula y k1 (param.pad.getD 1 0) (param.stride.getD 1 0)],
      if GetNumOutputs cfg param = 2 then
        [[a, b, validFormula x k0 (param.pad.getD 0 0) (param.stride.getD 0 0),
          validFormula y k1 (param.pad.getD 1 0) (param.stride.getD 1 0)]]
      else [], ?_, rfl, ?_⟩
    · rw [PoolingShape_2d cfg param a b x y k0 k1 _ _ _ _ out_shape hg hk0 (hs 0 (by omega))
        (hp 0 (by omega)) (hs 1 (by omega)) (hp 1 (by omega)),
        if_pos ⟨v0.1, v1.1⟩, if_pos hc, v0.2.1, v1.2.1, v0.2.2, v1.2.2, saveOutputShape_eq]
      rfl
    · intro i hi
      have hi0 : i = 0 ∨ i = 1 := by omega
      rcases hi0 with rfl | rfl <;>
        simp only [hk0, List.getD_cons_zero, List.getD_cons_succ]
  · obtain ⟨k0, k1, k2, hk0⟩ := List.length_eq_three.mp h3
    rw [h3] at hd
    obtain ⟨a, b, x, y, z, rfl⟩ : ∃ a b x y z, dshape = [a, b, x, y, z] := by
      match dshape, hd with
      | [a, b, x, y, z], _ => exact ⟨a, b, x, y, z, rfl⟩
    have a0 := hax 0 (by omega)
    have a1 := hax 1 (by omega)
    have a2 := hax 2 (by omega)
    have g0 := hfit 0 (by omega)
    have g1 := hfit 1 (by omega)
    have g2 := hfit 2 (by omega)
    rw [hk0] at a0 a1 a2 g0 g1 g2
    simp only [List.getD_cons_zero, List.getD_cons_succ] at a0 a1 a2 g0 g1 g2
    have v0 := validDim_axis a0.2.1 a0.2.2.2 g0.1 g0.2.1 g0.2.2.1 g0.2.2.2
    have v1 := validDim_axis a1.2.1 a1.2.2.2 g1.1 g1.2.1 g1.2.2.1 g1.2.2.2
    have v2 := validDim_axis a2.2.1 a2.2.2.2 g2.1 g2.2.1 g2.2.2.1 g2.2.2.2
    refine ⟨[a, b, validFormula x k0 (param.pad.getD 0 0) (param.stride.getD 0 0),
        validFormula y k1 (param.pad.getD 1 0) (param.stride.getD 1 0),
        validFormula z k2 (param.pad.getD 2 0) (param.stride.getD 2 0)],
      if GetNumOutputs cfg param = 2 then
        [[a, b, validFormula x k0 (param.pad.getD 0 0) (param.stride.getD 0 0),
          validFormula y k1 (param.pad.getD 1 0) (param.stride.getD 1 0),
          validFormula z k2 (param.pad.getD 2 0) (param.stride.getD 2 0)]]
      else [], ?_, rfl, ?_⟩
    · rw [PoolingShape_3d cfg param a b x y z k0 k1 k2 _ _ _ _ _ _ out_shape hg hk0
        (hs 0 (by omega)) (hp 0 (by omega)) (hs 1 (by omega)) (hp 1 (by omega))
        (hs 2 (by omega)) (hp 2 (by omega)),
        if_pos ⟨v0.1, v1.1, v2.1⟩, if_pos hc, v0.2.1, v1.2.1, v2.2.1, v0.2.2, v1.2.2, v2.2.2,
        saveOutputShape_eq]
      rfl
    · intro i hi
      have hi0 : i = 0 ∨ i = 1 ∨ i = 2 := by omega
      rcases hi0 with rfl | rfl | rfl <;>
        simp only [hk0, List.getD_cons_zero, List.getD_cons_succ]

/-- C1 at a concrete input: 2x2 pooling with stride 2 of a 7x8 image gives a
3x4 image. -/
theorem PoolingShape_valid_floor_witness :
    ∃ oshape ws,
      PoolingShape plainBuild (pool2x2 PoolingConvention.kValid) [[1, 3, 7, 8]] [] =
        Except.ok (true, oshape :: ws) ∧
      ndim oshape = ndim [1, 3, 7, 8] ∧
      ∀ i, i < ndim (pool2x2 PoolingConvention.kValid).kernel →
        oshape.getD (i + 2) 0 =
          validFormula (List.getD [1, 3, 7, 8] (i + 2) 0)
            ((pool2x2 PoolingConvention.kValid).kernel.getD i 0)
            ((pool2x2 PoolingConvention.kValid).pad.getD i 0)
            ((pool2x2 PoolingConvention.kValid).stride.getD i 0) :=
  PoolingShape_valid_floor plainBuild (pool2x2 PoolingConvention.kValid) [1, 3, 7, 8] []
    rfl rfl (Or.inr (Or.inl rfl)) rfl
    (by
      intro i hi
      have hi2 : i < 2 := hi
      interval_cases i <;> simp [pool2x2, ndim])
    (by
      intro i hi
      have hi2 : i < 2 := hi
      interval_cases i <;>
        simp only [pool2x2, List.getD_cons_zero, List.getD_cons_succ] <;>
        rw [validFormula_eq_tdiv (by decide) (by decide)] <;> decide)

/-- C1 as stated fails where `dshape[i+2] + 2*pad[i]` overflows: with kernel 2,
stride 1, pad 1 and the input shape (1, 1, 2^63 - 1) the premises of the claim
hold, the formula gives 2^63, and `PoolingShape` is aborted by the `CHECK` of
the kernel, because the padded width wraps to -2^63 + 1. -/
theorem PoolingShape_valid_floor_overflow :
    poolOverflow.global_pool = false ∧
      poolOverflow.pooling_convention = PoolingConvention.kValid ∧
      (0 : Int) < poolOverflow.stride.getD 0 0 ∧ (0 : Int) ≤ poolOverflow.pad.getD 0 0 ∧
      poolOverflow.kernel.getD 0 0 ≤ (2 ^ 63 - 1 : Int) + 2 * poolOverflow.pad.getD 0 0 ∧
      validFormula (2 ^ 63 - 1) 2 1 1 = 2 ^ 63 ∧
      PoolingShape plainBuild poolOverflow [[1, 1, 2 ^ 63 - 1]] [] =
        Except.error Failure.check := by
  refine ⟨rfl, rfl, by decide, by decide, by decide, ?_, rfl⟩
  simp [validFormula]

/-- C2: the "full" convention at a 1-D input of width 16777218 with kernel 1,
stride 1 and no padding.  The premises of the claim hold, the exact formula
`ceil((x + 2*p - k) / s) + 1` gives 16777218, and `PoolingShape` writes
16777217: the dividend 16777217 is not representable in `float` and is
rounded to 16777216 by the cast. -/
theorem PoolingShape_full_float_rounding :
    PoolingShape plainBuild pool1Full [[1, 1, 16777218]] [] =
        Except.ok (true, [[1, 1, 16777217]]) ∧
      fullFormula 16777218 1 0 1 = 16777218 ∧
      (0 : Int) < 1 ∧ (1 : Int) ≤ 16777218 + 2 * 0 := by
  refine ⟨rfl, ?_, by decide, by decide⟩
  simp [fullFormula]

/-- C3: `GetNumOutputs` is 2 and `GetNumBackInputs` is 5 exactly when the
build uses MKLDNN and both `MKLDNNRequireWorkspace` and `SupportMKLDNNPooling`
hold for the parameter; otherwise they are 1 and 3.  In every case
`GetNumBackInputs = 2 * GetNumOutputs + 1`. -/
theorem GetNumBackInputs_eq_two_mul_GetNumOutputs_add_one (cfg : Build)
    (param : PoolingParam) :
    (GetNumOutputs cfg param =
      if cfg.MXNET_USE_MKLDNN = true ∧ cfg.MKLDNNRequireWorkspace param = true ∧
        cfg.SupportMKLDNNPooling param = true then 2 else 1) ∧
    (GetNumBackInputs cfg param =
      if cfg.MXNET_USE_MKLDNN = true ∧ cfg.MKLDNNRequireWorkspace param = true ∧
        cfg.SupportMKLDNNPooling param = true then 5 else 3) ∧
    ((GetNumOutputs cfg param = 2 ∧ GetNumBackInputs cfg param = 5) ↔
      (cfg.MXNET_USE_MKLDNN = true ∧ cfg.MKLDNNRequireWorkspace param = true ∧
        cfg.SupportMKLDNNPooling param = true)) ∧
    GetNumBackInputs cfg param = 2 * GetNumOutputs cfg param + 1 := by
  unfold GetNumOutputs GetNumBackInputs
  cases cfg.MXNET_USE_MKLDNN <;> cases cfg.MKLDNNRequireWorkspace param <;>
    cases cfg.SupportMKLDNNPooling param <;> simp

/-- C4: for a parameter accepted by `PoolingParamParser` and a successful call
of `PoolingShape`, the output shapes afterwards are exactly `GetNumOutputs`
many, whatever was held before, and when there are two the workspace shape
equals the output shape. -/
theorem PoolingShape_output_count (cfg : Build) (init param : PoolingParam)
    (in_shape out_shape out2 : List TShape)
    (hparse : PoolingParamParser init = Except.ok param)
    (h : PoolingShape cfg param in_shape out_shape = Except.ok (true, out2)) :
    (out2.length : Int) = GetNumOutputs cfg param ∧
      ∃ oshape, out2 = if GetNumOutputs cfg param = 2 then [oshape, oshape] else [oshape] := by
  obtain ⟨dshape, oshape, _, _, rfl, _⟩ :=
    PoolingShape_ok_inv cfg param in_shape out_shape out2 true
      (PoolingParamParser_accepts hparse) h
  rw [saveOutputShape_eq]
  have hn : GetNumOutputs cfg param = 2 ∨ GetNumOutputs cfg param = 1 := by
    unfold GetNumOutputs
    cases cfg.MXNET_USE_MKLDNN <;> cases cfg.MKLDNNRequireWorkspace param <;>
      cases cfg.SupportMKLDNNPooling param <;> simp
  rcases hn with hn | hn
  · exact ⟨by simp [hn], oshape, by simp [hn]⟩
  · exact ⟨by simp [hn], oshape, by simp [hn]⟩

/-- C4 at a concrete input: an MKLDNN build that needs a workspace, a stale
output list, 2x2 pooling of a 7x8 image. -/
theorem PoolingShape_output_count_witness :
    PoolingParamParser (pool2x2 PoolingConvention.kValid) =
        Except.ok (pool2x2 PoolingConvention.kValid) ∧
      PoolingShape mkldnnBuild (pool2x2 PoolingConvention.kValid) [[1, 3, 7, 8]] [[9], [9], [9]] =
        Except.ok (true, [[1, 3, 3, 4], [1, 3, 3, 4]]) ∧
      ((([[1, 3, 3, 4], [1, 3, 3, 4]] : List TShape).length : Int) =
          GetNumOutputs mkldnnBuild (pool2x2 PoolingConvention.kValid) ∧
        ∃ oshape, ([[1, 3, 3, 4], [1, 3, 3, 4]] : List TShape) =
          if GetNumOutputs mkldnnBuild (pool2x2 PoolingConvention.kValid) = 2 then
            [oshape, oshape]
          else [oshape]) :=
  ⟨rfl, rfl,
    PoolingShape_output_count mkldnnBuild (pool2x2 PoolingConvention.kValid)
      (pool2x2 PoolingConvention.kValid) [[1, 3, 7, 8]] [[9], [9], [9]] _ rfl rfl⟩

/-- C5: `PoolingGradComputeExCPU` reads its inputs by position.  When
`MKLDNNRequireWorkspace` holds it fails a `CHECK` unless there are exactly 5
inputs and takes `out_grad = inputs[0]`, `in_data = inputs[2]` and
`workspace = inputs[4]`, which is the array bound to `workspace` by the forward
function (`outputs[1]`) when the inputs are the two output gradients, the
forward input and the two forward outputs.  Otherwise it fails a `CHECK`
unless there are exactly 3 inputs, takes `out_grad = inputs[0]` and
`in_data = inputs[1]`, and passes no workspace.  These are the arguments the
MKLDNN kernel is called with. -/
theorem PoolingGradComputeExCPU_input_order {NDArray OpReqType : Type} (cfg : Build)
    (sup : ArraySupport NDArray) (param : PoolingParam) :
    (∀ inputs : List NDArray,
      gradInputs cfg param inputs =
        if cfg.MKLDNNRequireWorkspace param = true then
          match inputs with
          | [g0, _, x, _, y1] => Except.ok ⟨g0, x, some y1⟩
          | _ => Except.error Failure.check
        else
          match inputs with
          | [g0, x, _] => Except.ok ⟨g0, x, none⟩
          | _ => Except.error Failure.check) ∧
    (∀ (inputs : List NDArray) (req : List OpReqType) (outputs : List NDArray),
      inputs.length ≠ (if cfg.MKLDNNRequireWorkspace param = true then 5 else 3) →
        PoolingGradComputeExCPU cfg sup param inputs req outputs =
          Except.error Failure.check) ∧
    (∀ (g0 g1 x y0 y1 : NDArray),
      cfg.MKLDNNRequireWorkspace param = true →
        forwardWorkspace cfg param [y0, y1] = Except.ok (some y1) ∧
        gradInputs cfg param ([g0, g1] ++ [x] ++ [y0, y1]) =
          Except.ok ⟨g0, x, some y1⟩) ∧
    (∀ (inputs : List NDArray) (sel : GradInputs NDArray) (r0 : OpReqType)
        (rs : List OpReqType) (o0 : NDArray) (os : List NDArray) (in0 : NDArray),
      gradInputs cfg param inputs = Except.ok sel → inputs[0]? = some in0 →
      (sup.SupportMKLDNN in0 && sup.SupportMKLDNNPooling param (sup.shape in0)) = true →
        PoolingGradComputeExCPU cfg sup param inputs (r0 :: rs) (o0 :: os) =
          Except.ok [Call.MKLDNN_OPCHECK_INIT true (o0 :: os).length inputs (o0 :: os),
            Call.MKLDNNPoolingGradCompute param sel.out_grad sel.in_data sel.workspace r0 o0,
            Call.MKLDNN_OPCHECK_RUN FCompute.PoolingGradCompute_cpu inputs (r0 :: rs)
              (o0 :: os)]) := by
  have hsel : ∀ inputs : List NDArray,
      gradInputs cfg param inputs =
        if cfg.MKLDNNRequireWorkspace param = true then
          match inputs with
          | [g0, _, x, _, y1] => Except.ok ⟨g0, x, some y1⟩
          | _ => Except.error Failure.check
        else
          match inputs with
          | [g0, x, _] => Except.ok ⟨g0, x, none⟩
          | _ => Except.error Failure.check := by
    intro inputs
    by_cases hw : cfg.MKLDNNRequireWorkspace param = true
    · match inputs with
      | [] | [_] | [_, _] | [_, _, _] | [_, _, _, _] | [_, _, _, _, _]
      | _ :: _ :: _ :: _ :: _ :: _ :: _ =>
        simp [gradInputs, hw, CHECK, vecAt, bind, Except.bind, pure, Except.pure, throw,
          throwThe, MonadExceptOf.throw]
    · match inputs with
      | [] | [_] | [_, _] | [_, _, _] | _ :: _ :: _ :: _ :: _ =>
        simp [gradInputs, hw, CHECK, vecAt, bind, Except.bind, pure, Except.pure, throw,
          throwThe, MonadExceptOf.throw]
  refine ⟨hsel, ?_, ?_, ?_⟩
  · intro inputs req outputs hne
    have : gradInputs cfg param inputs = Except.error Failure.check := by
      rw [hsel]
      by_cases hw : cfg.MKLDNNRequireWorkspace param = true
      · rw [if_pos hw] at hne ⊢
        match inputs, hne with
        | [], _ | [_], _ | [_, _], _ | [_, _, _], _ | [_, _, _, _], _
        | _ :: _ :: _ :: _ :: _ :: _ :: _, _ => rfl
        | [_, _, _, _, _], hne => exact absurd rfl hne
      · rw [if_neg hw] at hne ⊢
        match inputs, hne with
        | [], _ | [_], _ | [_, _], _ | _ :: _ :: _ :: _ :: _, _ => rfl
        | [_, _, _], hne => exact absurd rfl hne
    simp [PoolingGradComputeExCPU, this, bind, Except.bind]
  · intro g0 g1 x y0 y1 hw
    constructor
    · simp [forwardWorkspace, hw, CHECK, vecAt, bind, Except.bind, pure, Except.pure]
    · rw [hsel, if_pos hw]
      rfl
  · intro inputs sel r0 rs o0 os in0 hs h0 hsup
    simp [PoolingGradComputeExCPU, hs, vecAt, h0, hsup, bind, Except.bind, pure, Except.pure]

/-- C5 at concrete inputs: five numbered arrays with a workspace, three
without. -/
theorem PoolingGradComputeExCPU_input_order_witness :
    gradInputs mkldnnBuild globalPool [10, 11, 12, 13, 14] = Except.ok ⟨10, 12, some 14⟩ ∧
      forwardWorkspace mkldnnBuild globalPool [13, 14] = Except.ok (some 14) ∧
      PoolingGradComputeExCPU mkldnnBuild allSupport globalPool [10, 11, 12] [0] [20] =
        Except.error Failure.check ∧
      PoolingGradComputeExCPU mkldnnBuild allSupport globalPool [10, 11, 12, 13, 14] [0] [20] =
        Except.ok [Call.MKLDNN_OPCHECK_INIT true 1 [10, 11, 12, 13, 14] [20],
          Call.MKLDNNPoolingGradCompute globalPool 10 12 (some 14) 0 20,
          Call.MKLDNN_OPCHECK_RUN FCompute.PoolingGradCompute_cpu [10, 11, 12, 13, 14] [0]
            [20]] :=
  have h := @PoolingGradComputeExCPU_input_order Nat Nat mkldnnBuild allSupport globalPool
  ⟨(h.2.2.1 10 11 12 13 14 rfl).2, (h.2.2.1 10 11 12 13 14 rfl).1,
    h.2.1 [10, 11, 12] [0] [20] (by decide),
    h.2.2.2 [10, 11, 12, 13, 14] ⟨10, 12, some 14⟩ 0 [] 20 [] 10
      (h.2.2.1 10 11 12 13 14 rfl).2 rfl rfl⟩

/-- C6, amended: for non-global pooling with a kernel of rank 1, 2 or 3,
positive strides, stride and pad of the kernel's rank and a padded input
`dshape[i+2] + 2*pad[i]` that is computed without overflow on every kernel
axis, and for global pooling with any parameter, `PoolingShape` is aborted by
a `CHECK` exactly in the cases listed by `PoolingShapeAborts`; in every other
case it succeeds and returns true.  For global pooling the condition does not
mention the kernel. -/
theorem PoolingShape_aborts_iff (cfg : Build) (param : PoolingParam)
    (in_shape out_shape : List TShape)
    (hdom : param.global_pool = true ∨
      ((ndim param.kernel = 1 ∨ ndim param.kernel = 2 ∨ ndim param.kernel = 3) ∧
        ndim param.stride = ndim param.kernel ∧ ndim param.pad = ndim param.kernel ∧
        ∀ i, i < ndim param.kernel → 0 < param.stride.getD i 0))
    (hfit : param.global_pool = false → ∀ dshape, in_shape = [dshape] →
      ∀ i, i < ndim param.kernel →
        fitsDim (2 * param.pad.getD i 0) ∧
          fitsDim (dshape.getD (i + 2) 0 + 2 * param.pad.getD i 0)) :
    (PoolingShape cfg param in_shape out_shape = Except.error Failure.check ↔
        PoolingShapeAborts param in_shape) ∧
      (¬ PoolingShapeAborts param in_shape →
        ∃ out2, PoolingShape cfg param in_shape out_shape = Except.ok (true, out2)) := by
  by_cases hl : in_shape.length = 1
  swap
  · have hab : PoolingShapeAborts param in_shape := Or.inl hl
    rw [PoolingShape_input_count cfg param in_shape out_shape hl]
    exact ⟨⟨fun _ => hab, fun _ => rfl⟩, fun h => absurd hab h⟩
  obtain ⟨dshape, rfl⟩ := List.length_eq_one.mp hl
  by_cases hg : param.global_pool = true
  · have hab : PoolingShapeAborts param [dshape] ↔ ¬ (3 ≤ ndim dshape ∧ ndim dshape ≤ 5) := by
      simp only [PoolingShapeAborts, hg, if_true, List.length_singleton, ne_eq,
        not_true_eq_false, false_or, List.cons.injEq, and_true]
      constructor
      · rintro ⟨d, rfl, h⟩
        omega
      · intro h
        exact ⟨dshape, rfl, by omega⟩
    rw [PoolingShape_global cfg param dshape out_shape hg, hab]
    by_cases hr : 3 ≤ ndim dshape ∧ ndim dshape ≤ 5
    · simp [hr]
    · simp [hr]
  · have hgf : param.global_pool = false := by simpa using hg
    obtain ⟨hk, hs, hp, hpos⟩ := hdom.resolve_left hg
    have hab : PoolingShapeAborts param [dshape] ↔
        (ndim dshape ≠ ndim param.kernel + 2 ∨ ∃ i, i < ndim param.kernel ∧
          param.kernel.getD i 0 > dshape.getD (i + 2) 0 + 2 * param.pad.getD i 0) := by
      simp only [PoolingShapeAborts, hgf, List.length_singleton, ne_eq,
        not_true_eq_false, false_or, List.cons.injEq, and_true]
      constructor
      · rintro ⟨d, rfl, h⟩
        simpa using h
      · intro h
        exact ⟨dshape, rfl, by simpa using h⟩
    rw [hab]
    by_cases hd : ndim dshape = ndim param.kernel + 2
    swap
    · rw [PoolingShape_rank_mismatch cfg param dshape out_shape hgf hk hd]
      exact ⟨⟨fun _ => Or.inl hd, fun _ => rfl⟩, fun h => absurd (Or.inl hd) h⟩
    rcases hk with hk | hk | hk
    · rw [hk] at hd hs hp hpos
      obtain ⟨k0, hk0⟩ := List.length_eq_one.mp hk
      obtain ⟨s0, hs0⟩ := List.length_eq_one.mp hs
      obtain ⟨p0, hp0⟩ := List.length_eq_one.mp hp
      obtain ⟨a, b, x, rfl⟩ := List.length_eq_three.mp hd
      have q0 := hpos 0 (by omega)
      have g0 := hfit hgf _ rfl 0 (by omega)
      rw [hs0] at q0
      rw [hp0] at g0
      simp only [List.getD_cons_zero, List.getD_cons_succ] at q0 g0
      rw [PoolingShape_1d cfg param a b x k0 s0 p0 out_shape hgf hk0 (by simp [hs0])
        (by simp [hp0]), paddedInput_of_fits g0.1 g0.2, divUndefined_of_pos _ q0, hk,
        exists_lt_one, hk0, hp0]
      simp only [List.getD_cons_zero, List.getD_cons_succ, Bool.false_eq_true, if_false]
      by_cases f0 : k0 ≤ x + 2 * p0 <;>
        by_cases hc : param.pooling_convention = PoolingConvention.kValid <;>
        simp [f0, hc, ndim] <;> omega
    · rw [hk] at hd hs hp hpos
      obtain ⟨k0, k1, hk0⟩ := List.length_eq_two.mp hk
      obtain ⟨s0, s1, hs0⟩ := List.length_eq_two.mp hs
      obtain ⟨p0, p1, hp0⟩ := List.length_eq_two.mp hp
      obtain ⟨a, b, x, y, rfl⟩ : ∃ a b x y, dshape = [a, b, x, y] := by
        match dshape, hd with
        | [a, b, x, y], _ => exact ⟨a, b, x, y, rfl⟩
      have q0 := hpos 0 (by omega)
      have q1 := hpos 1 (by omega)
      have g0 := hfit hgf _ rfl 0 (by omega)
      have g1 := hfit hgf _ rfl 1 (by omega)
      rw [hs0] at q0 q1
      rw [hp0] at g0 g1
      simp only [List.getD_cons_zero, List.getD_cons_succ] at q0 q1 g0 g1
      rw [PoolingShape_2d cfg param a b x y k0 k1 s0 s1 p0 p1 out_shape hgf hk0
        (by simp [hs0]) (by simp [hp0]) (by simp [hs0]) (by simp [hp0]),
        paddedInput_of_fits g0.1 g0.2, paddedInput_of_fits g1.1 g1.2,
        divUndefined_of_pos _ q0, divUndefined_of_pos _ q1, hk, exists_lt_two, hk0, hp0]
      simp only [List.getD_cons_zero, List.getD_cons_succ, Bool.false_eq_true, or_self,
        if_false]
      by_cases f0 : k0 ≤ x + 2 * p0 <;> by_cases f1 : k1 ≤ y + 2 * p1 <;>
        by_cases hc : param.pooling_convention = PoolingConvention.kValid <;>
        simp [f0, f1, hc, ndim] <;> omega
    · rw [hk] at hd hs hp hpos
      obtain ⟨k0, k1, k2, hk0⟩ := List.length_eq_three.mp hk
      obtain ⟨s0, s1, s2, hs0⟩ := List.length_eq_three.mp hs
      obtain ⟨p0, p1, p2, hp0⟩ := List.length_eq_three.mp hp
      obtain ⟨a, b, x, y, z, rfl⟩ : ∃ a b x y z, dshape = [a, b, x, y, z] := by
        match dshape, hd with
        | [a, b, x, y, z], _ => exact ⟨a, b, x, y, z, rfl⟩
      have q0 := hpos 0 (by omega)
      have q1 := hpos 1 (by omega)
      have q2 := hpos 2 (by omega)
      have g0 := hfit hgf _ rfl 0 (by omega)
      have g1 := hfit hgf _ rfl 1 (by omega)
      have g2 := hfit hgf _ rfl 2 (by omega)
      rw [hs0] at q0 q1 q2
      rw [hp0] at g0 g1 g2
      simp only [List.getD_cons_zero, List.getD_cons_succ] at q0 q1 q2 g0 g1 g2
      rw [PoolingShape_3d cfg param a b x y z k0 k1 k2 s0 s1 s2 p0 p1 p2 out_shape hgf hk0
        (by simp [hs0]) (by simp [hp0]) (by simp [hs0]) (by simp [hp0]) (by simp [hs0])
        (by simp [hp0]), paddedInput_of_fits g0.1 g0.2, paddedInput_of_fits g1.1 g1.2,
        paddedInput_of_fits g2.1 g2.2, divUndefined_of_pos _ q0, divUndefined_of_pos _ q1,
        divUndefined_of_pos _ q2, hk, exists_lt_three, hk0, hp0]
      simp only [List.getD_cons_zero, List.getD_cons_succ, Bool.false_eq_true, or_self,
        if_false]
      by_cases f0 : k0 ≤ x + 2 * p0 <;> by_cases f1 : k1 ≤ y + 2 * p1 <;>
        by_cases f2 : k2 ≤ z + 2 * p2 <;>
        by_cases hc : param.pooling_convention = PoolingConvention.kValid <;>
        simp [f0, f1, f2, hc, ndim] <;> omega

/-- C6 at a concrete input: a 2x2 kernel on an input of height 1 is rejected. -/
theorem PoolingShape_aborts_iff_witness :
    ((pool2x2 PoolingConvention.kValid).global_pool = true ∨
      ((ndim (pool2x2 PoolingConvention.kValid).kernel = 1 ∨
          ndim (pool2x2 PoolingConvention.kValid).kernel = 2 ∨
          ndim (pool2x2 PoolingConvention.kValid).kernel = 3) ∧
        ndim (pool2x2 PoolingConvention.kValid).stride =
          ndim (pool2x2 PoolingConvention.kValid).kernel ∧
        ndim (pool2x2 PoolingConvention.kValid).pad =
          ndim (pool2x2 PoolingConvention.kValid).kernel ∧
        ∀ i, i < ndim (pool2x2 PoolingConvention.kValid).kernel →
          0 < (pool2x2 PoolingConvention.kValid).stride.getD i 0)) ∧
      ((PoolingShape plainBuild (pool2x2 PoolingConvention.kValid) [[1, 3, 1, 8]] [] =
            Except.error Failure.check ↔
          PoolingShapeAborts (pool2x2 PoolingConvention.kValid) [[1, 3, 1, 8]]) ∧
        (¬ PoolingShapeAborts (pool2x2 PoolingConvention.kValid) [[1, 3, 1, 8]] →
          ∃ out2, PoolingShape plainBuild (pool2x2 PoolingConvention.kValid) [[1, 3, 1, 8]] [] =
            Except.ok (true, out2))) :=
  have hdom : (pool2x2 PoolingConvention.kValid).global_pool = true ∨
      ((ndim (pool2x2 PoolingConvention.kValid).kernel = 1 ∨
          ndim (pool2x2 PoolingConvention.kValid).kernel = 2 ∨
          ndim (pool2x2 PoolingConvention.kValid).kernel = 3) ∧
        ndim (pool2x2 PoolingConvention.kValid).stride =
          ndim (pool2x2 PoolingConvention.kValid).kernel ∧
        ndim (pool2x2 PoolingConvention.kValid).pad =
          ndim (pool2x2 PoolingConvention.kValid).kernel ∧
        ∀ i, i < ndim (pool2x2 PoolingConvention.kValid).kernel →
          0 < (pool2x2 PoolingConvention.kValid).stride.getD i 0) :=
    Or.inr ⟨Or.inr (Or.inl rfl), rfl, rfl, by
      intro i hi
      have hi2 : i < 2 := hi
      interval_cases i <;> simp [pool2x2]⟩
  ⟨hdom, PoolingShape_aborts_iff plainBuild (pool2x2 PoolingConvention.kValid) [[1, 3, 1, 8]] []
    hdom (by
      intro _ dshape hd i hi
      have hd2 : dshape = [1, 3, 1, 8] := by simpa using hd.symm
      subst hd2
      have hi2 : i < 2 := hi
      interval_cases i <;> simp only [pool2x2, List.getD_cons_zero, List.getD_cons_succ] <;>
        decide)⟩

/-- C6 as stated fails where `dshape[i+2] + 2*pad[i]` overflows: with kernel 2,
stride 1, pad 1 and the single input shape (1, 1, 2^63 - 1) the premises of the
claim hold and none of the listed cases applies (the rank is 3 and
2 <= 2^63 + 1), yet `PoolingShape` is aborted by the `CHECK` of the kernel,
because the padded width wraps to -2^63 + 1. -/
theorem PoolingShape_aborts_iff_overflow :
    (poolOverflow.global_pool = false ∧ ndim poolOverflow.kernel = 1 ∧
        ndim poolOverflow.stride = 1 ∧ ndim poolOverflow.pad = 1 ∧
        (0 : Int) < poolOverflow.stride.getD 0 0) ∧
      ¬ PoolingShapeAborts poolOverflow [[1, 1, 2 ^ 63 - 1]] ∧
      PoolingShape plainBuild poolOverflow [[1, 1, 2 ^ 63 - 1]] [] =
        Except.error Failure.check := by
  refine ⟨⟨rfl, rfl, rfl, rfl, by decide⟩, ?_, rfl⟩
  intro h
  simp only [PoolingShapeAborts, List.length_singleton, ne_eq, not_true_eq_false, false_or,
    List.cons.injEq, and_true] at h
  obtain ⟨d, rfl, h⟩ := h
  simp only [poolOverflow, Bool.false_eq_true, if_false, ndim, List.length_cons,
    List.length_nil] at h
  rcases h with h | ⟨i, hi, h⟩
  · exact h trivial
  · have hi0 : i = 0 := by omega
    subst hi0
    simp only [List.getD_cons_zero, List.getD_cons_succ] at h
    norm_num at h

/-- C7: on every successful call of `PoolingShape` with a parameter stored by
the parser, every shape written has the rank of the input shape and the same
batch and channel dimensions (indices 0 and 1). -/
theorem PoolingShape_keeps_batch_and_channel (cfg : Build) (init param : PoolingParam)
    (in_shape out_shape out2 : List TShape)
    (hparse : PoolingParamParser init = Except.ok param)
    (h : PoolingShape cfg param in_shape out_shape = Except.ok (true, out2)) :
    ∃ dshape, in_shape = [dshape] ∧ out2 ≠ [] ∧
      ∀ oshape, oshape ∈ out2 →
        ndim oshape = ndim dshape ∧ oshape[0]? = dshape[0]? ∧ oshape[1]? = dshape[1]? := by
  obtain ⟨dshape, oshape, rfl, _, rfl, hf⟩ :=
    PoolingShape_ok_inv cfg param in_shape out_shape out2 true
      (PoolingParamParser_accepts hparse) h
  refine ⟨dshape, rfl, by simp [saveOutputShape_eq], ?_⟩
  intro o ho
  rw [saveOutputShape_eq] at ho
  have : o = oshape := by
    by_cases hn : GetNumOutputs cfg param = 2 <;> simp [hn] at ho <;> exact ho
  subst this
  exact hf

/-- C7 at a concrete input: full-convention 2x2 pooling of a 7x8 image. -/
theorem PoolingShape_keeps_batch_and_channel_witness :
    PoolingParamParser (pool2x2 PoolingConvention.kFull) =
        Except.ok (pool2x2 PoolingConvention.kFull) ∧
      PoolingShape plainBuild (pool2x2 PoolingConvention.kFull) [[1, 3, 7, 8]] [] =
        Except.ok (true, [[1, 3, 4, 4]]) ∧
      ∃ dshape, ([[1, 3, 7, 8]] : List TShape) = [dshape] ∧
        ([[1, 3, 4, 4]] : List TShape) ≠ [] ∧
        ∀ oshape, oshape ∈ ([[1, 3, 4, 4]] : List TShape) →
          ndim oshape = ndim dshape ∧ oshape[0]? = dshape[0]? ∧ oshape[1]? = dshape[1]? :=
  ⟨rfl, rfl,
    PoolingShape_keeps_batch_and_channel plainBuild (pool2x2 PoolingConvention.kFull)
      (pool2x2 PoolingConvention.kFull) [[1, 3, 7, 8]] [] _ rfl rfl⟩

/-- C8: with `global_pool` set, for every input shape of rank 3, 4 or 5 and
every kernel, stride, pad and convention, `PoolingShape` succeeds and writes
the input shape with every dimension from index 2 on replaced by 1.  This is
also the shape that pooling without `global_pool` gives when the kernel is
reset to the spatial extent of the input, for zero padding and non-zero
strides. -/
theorem PoolingShape_global_ones (cfg : Build) (param : PoolingParam) (dshape : TShape)
    (out_shape : List TShape) (hg : param.global_pool = true)
    (hr : 3 ≤ ndim dshape ∧ ndim dshape ≤ 5) :
    (∃ ws, PoolingShape cfg param [dshape] out_shape =
        Except.ok (true, (dshape.take 2 ++ List.replicate (ndim dshape - 2) 1) :: ws)) ∧
      ∀ q : PoolingParam, q.global_pool = false → q.kernel = dshape.drop 2 →
        (∀ i, i < ndim dshape - 2 →
          q.pad[i]? = some 0 ∧ ∃ s, q.stride[i]? = some s ∧ s ≠ 0) →
        ∃ ws, PoolingShape cfg q [dshape] out_shape =
          Except.ok (true, (dshape.take 2 ++ List.replicate (ndim dshape - 2) 1) :: ws) := by
  constructor
  · rw [PoolingShape_global cfg param dshape out_shape hg, if_pos hr, saveOutputShape_eq]
    exact ⟨_, rfl⟩
  · intro q hq hk hax
    match dshape, hr, hk, hax with
    | [a, b, x], _, hk, hax =>
      obtain ⟨hp0, s0, hs0, z0⟩ := hax 0 (by simp [ndim])
      rw [PoolingShape_1d cfg q a b x x s0 0 out_shape hq (by simpa using hk) hs0 hp0]
      simp only [saveOutputShape_eq]
      by_cases hc : q.pooling_convention = PoolingConvention.kValid <;>
        simp [hc, z0, divUndefined_zero z0, paddedInput_zero, poolDividend_self, dimAdd_one_zero,
          ceilDivF32_zero, ndim, List.replicate]
    | [a, b, x, y], _, hk, hax =>
      obtain ⟨hp0, s0, hs0, z0⟩ := hax 0 (by simp [ndim])
      obtain ⟨hp1, s1, hs1, z1⟩ := hax 1 (by simp [ndim])
      rw [PoolingShape_2d cfg q a b x y x y s0 s1 0 0 out_shape hq (by simpa using hk) hs0 hp0
        hs1 hp1]
      simp only [saveOutputShape_eq]
      by_cases hc : q.pooling_convention = PoolingConvention.kValid <;>
        simp [hc, z0, z1, divUndefined_zero z0, divUndefined_zero z1, paddedInput_zero, poolDividend_self, dimAdd_one_zero,
          ceilDivF32_zero, ndim, List.replicate]
    | [a, b, x, y, z], _, hk, hax =>
      obtain ⟨hp0, s0, hs0, z0⟩ := hax 0 (by simp [ndim])
      obtain ⟨hp1, s1, hs1, z1⟩ := hax 1 (by simp [ndim])
      obtain ⟨hp2, s2, hs2, z2⟩ := hax 2 (by simp [ndim])
      rw [PoolingShape_3d cfg q a b x y z x y z s0 s1 s2 0 0 0 out_shape hq (by simpa using hk)
        hs0 hp0 hs1 hp1 hs2 hp2]
      simp only [saveOutputShape_eq]
      by_cases hc : q.pooling_convention = PoolingConvention.kValid <;>
        simp [hc, z0, z1, z2, divUndefined_zero z0, divUndefined_zero z1, divUndefined_zero z2, paddedInput_zero, poolDividend_self, dimAdd_one_zero,
          ceilDivF32_zero, ndim, List.replicate]

/-- C8 at a concrete input: global pooling of a 7x8 image, and pooling with a
7x8 kernel. -/
theorem PoolingShape_global_ones_witness :
    globalPool.global_pool = true ∧ (3 ≤ ndim [1, 3, 7, 8] ∧ ndim [1, 3, 7, 8] ≤ 5) ∧
      (∃ ws, PoolingShape mkldnnBuild globalPool [[1, 3, 7, 8]] [] =
        Except.ok (true, [1, 3, 1, 1] :: ws)) ∧
      ∃ ws, PoolingShape mkldnnBuild pool7x8 [[1, 3, 7, 8]] [] =
        Except.ok (true, [1, 3, 1, 1] :: ws) :=
  have h := PoolingShape_global_ones mkldnnBuild globalPool [1, 3, 7, 8] [] rfl
    ⟨by decide, by decide⟩
  ⟨rfl, ⟨by decide, by decide⟩, h.1,
    h.2 pool7x8 rfl rfl (by
      intro i hi
      have hi2 : i < 2 := hi
      interval_cases i <;> simp [pool7x8])⟩

/-- C9: `PoolingParamParser` accepts the parameter exactly when the kernel has
rank 1, 2 or 3 or the pooling is global.  It then stores the parameter with an
unspecified (rank 0) stride replaced by ones and an unspecified pad replaced by
zeros, of rank 1 for a kernel of rank 1, rank 2 for a kernel of rank 2 and rank
3 in every other case; a specified stride or pad and all other fields are
stored unchanged. -/
theorem PoolingParamParser_fills_defaults (init : PoolingParam) :
    PoolingParamParser init =
      if ndim init.kernel = 1 ∨ ndim init.kernel = 2 ∨ ndim init.kernel = 3 ∨
          init.global_pool = true then
        Except.ok
          { init with
            stride :=
              if ndim init.stride = 0 then List.replicate (defaultRank init.kernel) 1
              else init.stride
            pad :=
              if ndim init.pad = 0 then List.replicate (defaultRank init.kernel) 0
              else init.pad }
      else Except.error Failure.check := by
  rcases init with ⟨kernel, stride, pad, pool_type, conv, global_pool⟩
  dsimp only
  by_cases h1 : ndim kernel = 1
  · by_cases hs : ndim stride = 0 <;> by_cases hp : ndim pad = 0 <;>
      simp [PoolingParamParser, defaultRank, Shape1, h1, hs, hp, pure, Except.pure,
        List.replicate]
  · by_cases h2 : ndim kernel = 2
    · by_cases hs : ndim stride = 0 <;> by_cases hp : ndim pad = 0 <;>
        simp [PoolingParamParser, defaultRank, Shape2, h2, hs, hp, pure, Except.pure,
          List.replicate]
    · by_cases h3 : ndim kernel = 3 <;> by_cases hg : global_pool = true <;>
        by_cases hs : ndim stride = 0 <;> by_cases hp : ndim pad = 0 <;>
        simp_all [PoolingParamParser, defaultRank, Shape3, CHECK, bind, Except.bind, pure,
          Except.pure, throw, throwThe, MonadExceptOf.throw, List.replicate]

/-- C10: an invocation of `PoolingComputeExCPU` that passes its `CHECK` makes
exactly one compute call: `MKLDNNPoolingCompute` if and only if
`SupportMKLDNN(inputs[0])` and `SupportMKLDNNPooling(param, inputs[0].shape())`
both hold, and otherwise `FallBackCompute` with `PoolingCompute<cpu>`.
`PoolingGradComputeExCPU` chooses between `MKLDNNPoolingGradCompute` and
`FallBackCompute` with `PoolingGradCompute<cpu>` by the same two predicates. -/
theorem dispatch_exactly_one_path {NDArray OpReqType : Type} (cfg : Build)
    (sup : ArraySupport NDArray) (param : PoolingParam)
    (in0 : NDArray) (ins : List NDArray) (r0 : OpReqType) (rs : List OpReqType)
    (o0 : NDArray) (os : List NDArray) (g0 : NDArray) (gs : List NDArray)
    (hf : cfg.MKLDNNRequireWorkspace param = true → 1 < (o0 :: os).length)
    (hb : (g0 :: gs).length = if cfg.MKLDNNRequireWorkspace param = true then 5 else 3) :
    (∃ trace, PoolingComputeExCPU cfg sup param (in0 :: ins) (r0 :: rs) (o0 :: os) =
        Except.ok trace ∧
      (trace.filter Call.isComputePath).length = 1 ∧
      ((∃ ws, Call.MKLDNNPoolingCompute param in0 r0 o0 ws ∈ trace) ↔
        (sup.SupportMKLDNN in0 && sup.SupportMKLDNNPooling param (sup.shape in0)) = true) ∧
      (trace.any Call.isMKLDNNKernel = true ↔
        (sup.SupportMKLDNN in0 && sup.SupportMKLDNNPooling param (sup.shape in0)) = true) ∧
      (Call.FallBackCompute FCompute.PoolingCompute_cpu (in0 :: ins) (r0 :: rs) (o0 :: os) ∈
          trace ↔
        (sup.SupportMKLDNN in0 && sup.SupportMKLDNNPooling param (sup.shape in0)) = false)) ∧
    (∃ trace, PoolingGradComputeExCPU cfg sup param (g0 :: gs) (r0 :: rs) (o0 :: os) =
        Except.ok trace ∧
      (trace.filter Call.isComputePath).length = 1 ∧
      ((∃ x ws, Call.MKLDNNPoolingGradCompute param g0 x ws r0 o0 ∈ trace) ↔
        (sup.SupportMKLDNN g0 && sup.SupportMKLDNNPooling param (sup.shape g0)) = true) ∧
      (trace.any Call.isMKLDNNKernel = true ↔
        (sup.SupportMKLDNN g0 && sup.SupportMKLDNNPooling param (sup.shape g0)) = true) ∧
      (Call.FallBackCompute FCompute.PoolingGradCompute_cpu (g0 :: gs) (r0 :: rs)
          (o0 :: os) ∈ trace ↔
        (sup.SupportMKLDNN g0 && sup.SupportMKLDNNPooling param (sup.shape g0)) = false)) := by
  constructor
  · have hw : ∃ w, forwardWorkspace cfg param (o0 :: os) = Except.ok w := by
      by_cases hreq : cfg.MKLDNNRequireWorkspace param = true
      · have h1 := hf hreq
        match os, h1 with
        | o1 :: os2, _ =>
          exact ⟨some o1, by
            simp [forwardWorkspace, hreq, CHECK, vecAt, bind, Except.bind, pure, Except.pure]⟩
      · exact ⟨none, by simp [forwardWorkspace, hreq, pure, Except.pure]⟩
    obtain ⟨w, hw⟩ := hw
    by_cases hsup :
        (sup.SupportMKLDNN in0 && sup.SupportMKLDNNPooling param (sup.shape in0)) = true
    · refine ⟨[Call.MKLDNN_OPCHECK_INIT false 1 (in0 :: ins) (o0 :: os),
          Call.MKLDNNPoolingCompute param in0 r0 o0 w,
          Call.MKLDNN_OPCHECK_RUN FCompute.PoolingCompute_cpu (in0 :: ins) (r0 :: rs)
            (o0 :: os)], ?_, ?_, ?_, ?_, ?_⟩
      · simp [PoolingComputeExCPU, hw, vecAt, hsup, bind, Except.bind, pure, Except.pure]
      · simp [Call.isComputePath]
      · simp [hsup]
      · simp [hsup, Call.isMKLDNNKernel]
      · simp [hsup]
    · refine ⟨[Call.FallBackCompute FCompute.PoolingCompute_cpu (in0 :: ins) (r0 :: rs)
          (o0 :: os)], ?_, ?_, ?_, ?_, ?_⟩
      · simp [PoolingComputeExCPU, hw, vecAt, hsup, bind, Except.bind, pure, Except.pure]
      · simp [Call.isComputePath]
      · simp [hsup]
      · simp [hsup, Call.isMKLDNNKernel]
      · simpa using hsup
  · have hw : ∃ sel, gradInputs cfg param (g0 :: gs) = Except.ok sel ∧ sel.out_grad = g0 := by
      by_cases hreq : cfg.MKLDNNRequireWorkspace param = true
      · rw [if_pos hreq] at hb
        match gs, hb with
        | [g1, x, y0, y1], _ =>
          exact ⟨⟨g0, x, some y1⟩, by
            simp [gradInputs, hreq, CHECK, vecAt, bind, Except.bind, pure, Except.pure], rfl⟩
      · rw [if_neg hreq] at hb
        match gs, hb with
        | [x, y0], _ =>
          exact ⟨⟨g0, x, none⟩, by
            simp [gradInputs, hreq, CHECK, vecAt, bind, Except.bind, pure, Except.pure], rfl⟩
    obtain ⟨sel, hw, hg⟩ := hw
    by_cases hsup :
        (sup.SupportMKLDNN g0 && sup.SupportMKLDNNPooling param (sup.shape g0)) = true
    · refine ⟨[Call.MKLDNN_OPCHECK_INIT true (o0 :: os).length (g0 :: gs) (o0 :: os),
          Call.MKLDNNPoolingGradCompute param sel.out_grad sel.in_data sel.workspace r0 o0,
          Call.MKLDNN_OPCHECK_RUN FCompute.PoolingGradCompute_cpu (g0 :: gs) (r0 :: rs)
            (o0 :: os)], ?_, ?_, ?_, ?_, ?_⟩
      · simp [PoolingGradComputeExCPU, hw, vecAt, hsup, bind, Except.bind, pure, Except.pure]
      · simp [Call.isComputePath]
      · simp only [hsup, iff_true]
        exact ⟨sel.in_data, sel.workspace, by simp [hg]⟩
      · simp [hsup, Call.isMKLDNNKernel]
      · simp [hsup]
    · refine ⟨[Call.FallBackCompute FCompute.PoolingGradCompute_cpu (g0 :: gs) (r0 :: rs)
          (o0 :: os)], ?_, ?_, ?_, ?_, ?_⟩
      · simp [PoolingGradComputeExCPU, hw, vecAt, hsup, bind, Except.bind, pure, Except.pure]
      · simp [Call.isComputePath]
      · simp [hsup]
      · simp [hsup, Call.isMKLDNNKernel]
      · simpa using hsup

/-- C10 at concrete inputs: one forward input and two outputs, five backward
inputs, every array supported. -/
theorem dispatch_exactly_one_path_witness :
    (mkldnnBuild.MKLDNNRequireWorkspace globalPool = true → 1 < [20, 21].length) ∧
      ([10, 11, 12, 13, 14].length =
        if mkldnnBuild.MKLDNNRequireWorkspace globalPool = true then 5 else 3) ∧
      (∃ trace, PoolingComputeExCPU mkldnnBuild allSupport globalPool [12] [0] [20, 21] =
          Except.ok trace ∧
        (trace.filter Call.isComputePath).length = 1) ∧
      ∃ trace, PoolingGradComputeExCPU mkldnnBuild allSupport globalPool [10, 11, 12, 13, 14]
          [0] [20, 21] = Except.ok trace ∧
        (trace.filter Call.isComputePath).length = 1 :=
  have h := @dispatch_exactly_one_path Nat Nat mkldnnBuild allSupport globalPool 12 [] 0 []
    20 [21] 10 [11, 12, 13, 14] (fun _ => by decide) rfl
  ⟨fun _ => by decide, rfl,
    h.1.imp (fun _ ht => ⟨ht.1, ht.2.1⟩), h.2.imp (fun _ ht => ⟨ht.1, ht.2.1⟩)⟩

/-- C12: copy fidelity.  For every valid engine, every input array the test
builds (a plain array, an array in an MKLDNN layout, the slice of such an
array) for shapes of at least three rows, and every output array it builds for
the shape of the input (plain, sliced, reused, reused with reinterpreted
element type, reused and sliced, holding an MKLDNN layout), the output has the
element count of the input, `CopyFrom` of the memory of the input, realised in
the default layout when it is a view of an MKLDNN layout, succeeds, and the
output realised in the default layout then has the contents and the element
count of the input realised in the default layout; both expectations of
`VerifyCopyResult` are met after the submit of the stream. -/
theorem CopyFrom_copy_fidelity {α : Type} [DecidableEq α] [Inhabited α]
    (E : Engine) (hE : E.Valid) (cast rand : Nat → α) (tas : TestArrayShapes) (drawn : Nat)
    (stream : MKLDNNStream α) (hrows : ∀ s ∈ tas.shapes, 3 ≤ s.headD 0)
    (in_arr : NDArray α) (hin : in_arr ∈ GetTestInputArrays E cast tas)
    (out_arr : NDArray α)
    (hout : out_arr ∈ GetTestOutputArrays E rand in_arr.shape tas.pds drawn) :
    Size out_arr.shape = Size in_arr.shape ∧
      (∃ in0 out0 : NDArray α,
        in0 = (if in_arr.IsMKLDNNData && in_arr.IsView then in_arr.Reorder2Default E
          else in_arr) ∧
        out_arr.CopyFrom E (in0.GetMKLDNNData E) = .ok out0 ∧
        (out0.Reorder2Default E).data E = (in0.Reorder2Default E).data E ∧
        Size (out0.Reorder2Default E).shape = Size (in0.Reorder2Default E).shape ∧
        (in0.Reorder2Default E).data E = in_arr.data E) ∧
      copyFromBody E in_arr out_arr stream =
        .ok (some ⟨true, true⟩, stream.Submit E true) := by
  obtain ⟨hwf, f, t, hshape, hf⟩ := GetTestInputArrays_wellFormed E cast tas hrows in_arr hin
  rw [hshape] at hout
  obtain ⟨hwo, hsz⟩ := GetTestOutputArrays_wellFormed E rand f t hf tas.pds drawn out_arr hout
  rw [← hshape] at hsz
  exact ⟨hsz, copyFromBody_ok hE in_arr out_arr stream hwf hwo hsz⟩

/-- C12 at a concrete input: the slice of an array of shape (3, 2) in the
reversed layout is copied into a reused array that holds the reversed layout
of a one-dimensional descriptor. -/
theorem CopyFrom_copy_fidelity_witness :
    (reversingEngine.Valid ∧
        (∀ s ∈ (⟨[[3, 2]], [⟨[3, 2], 1⟩, ⟨[2], 1⟩]⟩ : TestArrayShapes).shapes, 3 ≤ s.headD 0) ∧
        (⟨Chunk.shadowed ⟨⟨[3, 2], 1⟩, [5, 4, 3, 2, 1, 0]⟩, 2, [1, 2], default_type_flag,
            Ownership.view⟩ : NDArray Int) ∈
          GetTestInputArrays reversingEngine natCast ⟨[[3, 2]], [⟨[3, 2], 1⟩, ⟨[2], 1⟩]⟩ ∧
        (⟨Chunk.shadowed ⟨⟨[2], 1⟩, [117, 116]⟩, 0, [1, 2], default_type_flag,
            Ownership.reused⟩ : NDArray Int) ∈
          GetTestOutputArrays reversingEngine (fun i => Int.ofNat (100 + i)) [1, 2]
            [⟨[3, 2], 1⟩, ⟨[2], 1⟩] 0) ∧
      NDArray.data reversingEngine
          (⟨Chunk.shadowed ⟨⟨[3, 2], 1⟩, [5, 4, 3, 2, 1, 0]⟩, 2, [1, 2], default_type_flag,
            Ownership.view⟩ : NDArray Int) = [2, 3] ∧
      copyFromBody reversingEngine
          (⟨Chunk.shadowed ⟨⟨[3, 2], 1⟩, [5, 4, 3, 2, 1, 0]⟩, 2, [1, 2], default_type_flag,
            Ownership.view⟩ : NDArray Int)
          ⟨Chunk.shadowed ⟨⟨[2], 1⟩, [117, 116]⟩, 0, [1, 2], default_type_flag,
            Ownership.reused⟩ MKLDNNStream.fresh =
        .ok (some ⟨true, true⟩, MKLDNNStream.Submit reversingEngine MKLDNNStream.fresh true) :=
  have h := CopyFrom_copy_fidelity reversingEngine reversingEngine_valid natCast
    (fun i => Int.ofNat (100 + i)) ⟨[[3, 2]], [⟨[3, 2], 1⟩, ⟨[2], 1⟩]⟩ 0 MKLDNNStream.fresh
    (by decide)
    ⟨Chunk.shadowed ⟨⟨[3, 2], 1⟩, [5, 4, 3, 2, 1, 0]⟩, 2, [1, 2], default_type_flag,
      Ownership.view⟩ (by decide)
    ⟨Chunk.shadowed ⟨⟨[2], 1⟩, [117, 116]⟩, 0, [1, 2], default_type_flag,
      Ownership.reused⟩ (by decide)
  ⟨⟨reversingEngine_valid, by decide, by decide, by decide⟩, by decide, h.2.2⟩

end mxnet.op
